import Mathlib

/-!
Shallow embedding of the read/update effect system core (effect unification,
simplification and substitutions) of the repository, translated from the
TypeScript source module, together with theorems settling the design-document
claims about it.

Modelling notes on JavaScript semantics used by the source:

* `Array.prototype.includes(x)` compares with SameValueZero; on objects this is
  reference equality.  Where the source passes a freshly allocated object
  literal, the test is identically `false` (see `jsIncludesFreshObject`).
* `Array.prototype.sort` sorts in place and returns the same array.  The
  comparator `(n1, n2) => n1 > n2 ? 1 : -1` sorts strings ascending (equal
  strings are indistinguishable values, so the result is the canonical sorted
  list).  The pure value is modelled by `sortStrings`; the observable mutation
  of the caller's array is modelled by `varsAfterSameVars`.
* `Array.from(new Set(strings))` deduplicates strings by value keeping first
  occurrences (`jsSetDedup`).  `Array.from(new Set(objects))` deduplicates by
  object reference; distinct structural constructions are distinct objects, so
  on alias-free values it is the identity and is modelled as such.
* `JSON.stringify(a) === JSON.stringify(b)` on these record types holds exactly
  when the two values are structurally equal, and is modelled by decidable
  structural equality.
* String interpolation of an object array inside a template literal prints
  `[object Object]` per element, comma-separated (`substitutionsToJsString`).
* The `Either` combinators: `merge` returns the first `left`; `mergeInMany`
  collects every `left` into a list.
-/

namespace Effects

/-- The variables an effect acts upon: a list of state variables, a
quantification variable, or a combination to be computed as a union.
The source field name `variables` of the union form is a reserved word in
Lean, so the field is called `children` here. -/
inductive Variables where
  | concrete (vars : List String)
  | quantified (name : String)
  | union (children : List Variables)
deriving Repr

/-- The effect of an expression: a quantification variable, a concrete
read/update pair, or an arrow effect for operators. -/
inductive Effect where
  | quantified (name : String)
  | concrete (read : Variables) (update : Variables)
  | arrow (params : List Effect) (result : Effect)
deriving Repr

/-- A tree of errors tracking the trace from the full given effect(s) to the
part where the error occurred.  `message` is optional (used at terminal
nodes), `location` describes the context. -/
inductive ErrorTree where
  | mk (message : Option String) (location : String) (children : List ErrorTree)
deriving Repr

def ErrorTree.message : ErrorTree → Option String
  | .mk m _ _ => m

def ErrorTree.location : ErrorTree → String
  | .mk _ l _ => l

def ErrorTree.children : ErrorTree → List ErrorTree
  | .mk _ _ c => c

/-- Substitutions replace quantified names with concrete values, either at the
level of variable bags (source kind string `'variable'`, constructor `var`
here) or at the level of effects (kind string `'effect'`). -/
inductive Substitution where
  | var (name : String) (value : Variables)
  | effect (name : String) (value : Effect)
deriving Repr

def Substitution.name : Substitution → String
  | .var n _ => n
  | .effect n _ => n

/-- The kind tag of a quantified name collected by the `effectNames` and
`variablesNames` walks (source kind strings `'effect'` and `'variable'`). -/
inductive NameKind where
  | effect
  | var
deriving DecidableEq, Repr

/-- A quantified name together with its kind, as enumerated by the
`effectNames` and `variablesNames` walks. -/
structure Name where
  kind : NameKind
  name : String
deriving DecidableEq, Repr

/-- A disjunction over the two error representations used inside the unifier
(a single tree or a list of trees); the source calls this union `Error`. -/
inductive UnifyError where
  | one (tree : ErrorTree)
  | many (trees : List ErrorTree)
deriving Repr

/-- A shortcut to writing the empty set of variables. -/
def emptyVariables : Variables := .concrete []

mutual

def beqVariables : Variables → Variables → Bool
  | .concrete a, .concrete b => a == b
  | .quantified a, .quantified b => a == b
  | .union a, .union b => beqVariablesList a b
  | _, _ => false

def beqVariablesList : List Variables → List Variables → Bool
  | [], [] => true
  | a :: as, b :: bs => beqVariables a b && beqVariablesList as bs
  | _, _ => false

end

mutual

theorem beqVariables_iff : ∀ a b, beqVariables a b = true ↔ a = b
  | .concrete _, .concrete _ => by simp [beqVariables]
  | .concrete _, .quantified _ => by simp [beqVariables]
  | .concrete _, .union _ => by simp [beqVariables]
  | .quantified _, .concrete _ => by simp [beqVariables]
  | .quantified _, .quantified _ => by simp [beqVariables]
  | .quantified _, .union _ => by simp [beqVariables]
  | .union _, .concrete _ => by simp [beqVariables]
  | .union _, .quantified _ => by simp [beqVariables]
  | .union a, .union b => by simp [beqVariables, beqVariablesList_iff a b]

theorem beqVariablesList_iff : ∀ a b, beqVariablesList a b = true ↔ a = b
  | [], [] => by simp [beqVariablesList]
  | [], _ :: _ => by simp [beqVariablesList]
  | _ :: _, [] => by simp [beqVariablesList]
  | a :: as, b :: bs => by
      simp [beqVariablesList, beqVariables_iff a b, beqVariablesList_iff as bs]

end

instance : DecidableEq Variables := fun a b =>
  decidable_of_iff _ (beqVariables_iff a b)

mutual

def beqEffect : Effect → Effect → Bool
  | .quantified a, .quantified b => a == b
  | .concrete r1 u1, .concrete r2 u2 => decide (r1 = r2) && decide (u1 = u2)
  | .arrow p1 q1, .arrow p2 q2 => beqEffectList p1 p2 && beqEffect q1 q2
  | _, _ => false

def beqEffectList : List Effect → List Effect → Bool
  | [], [] => true
  | a :: as, b :: bs => beqEffect a b && beqEffectList as bs
  | _, _ => false

end

mutual

theorem beqEffect_iff : ∀ a b, beqEffect a b = true ↔ a = b
  | .quantified _, .quantified _ => by simp [beqEffect]
  | .quantified _, .concrete _ _ => by simp [beqEffect]
  | .quantified _, .arrow _ _ => by simp [beqEffect]
  | .concrete _ _, .quantified _ => by simp [beqEffect]
  | .concrete _ _, .concrete _ _ => by simp [beqEffect]
  | .concrete _ _, .arrow _ _ => by simp [beqEffect]
  | .arrow _ _, .quantified _ => by simp [beqEffect]
  | .arrow _ _, .concrete _ _ => by simp [beqEffect]
  | .arrow p1 q1, .arrow p2 q2 => by
      simp [beqEffect, beqEffectList_iff p1 p2, beqEffect_iff q1 q2]

theorem beqEffectList_iff : ∀ a b, beqEffectList a b = true ↔ a = b
  | [], [] => by simp [beqEffectList]
  | [], _ :: _ => by simp [beqEffectList]
  | _ :: _, [] => by simp [beqEffectList]
  | a :: as, b :: bs => by
      simp [beqEffectList, beqEffect_iff a b, beqEffectList_iff as bs]

end

instance : DecidableEq Effect := fun a b =>
  decidable_of_iff _ (beqEffect_iff a b)

instance : DecidableEq Substitution := fun a b =>
  match a, b with
  | .var n1 v1, .var n2 v2 =>
      decidable_of_iff (n1 = n2 ∧ v1 = v2) (by simp [Substitution.var.injEq])
  | .effect n1 v1, .effect n2 v2 =>
      decidable_of_iff (n1 = n2 ∧ v1 = v2) (by simp [Substitution.effect.injEq])
  | .var _ _, .effect _ _ => isFalse (by simp)
  | .effect _ _, .var _ _ => isFalse (by simp)

/-- Pretty prints effect variables (from the printing module): concrete bags
as single-quoted comma-separated names, quantified bags as the bare name,
unions as the comma-separated members. -/
def variablesToString : Variables → String
  | .concrete vars => String.intercalate ", " (vars.map fun v => "'" ++ v ++ "'")
  | .quantified name => name
  | .union cs => String.intercalate ", " (variablesToStringList cs)
where variablesToStringList : List Variables → List String
  | [] => []
  | c :: cs => variablesToString c :: variablesToStringList cs

mutual

/-- Pretty prints an effect (from the printing module). -/
def effectToString : Effect → String
  | .concrete rd up =>
    let readPart : List String :=
      match rd with
      | .concrete vs => if vs.length > 0 then ["Read[" ++ variablesToString rd ++ "]"] else []
      | _ => ["Read[" ++ variablesToString rd ++ "]"]
    let updatePart : List String :=
      match up with
      | .concrete vs => if vs.length > 0 then ["Update[" ++ variablesToString up ++ "]"] else []
      | _ => ["Update[" ++ variablesToString up ++ "]"]
    let output := readPart ++ updatePart
    if output.length > 0 then String.intercalate " & " output else "Pure"
  | .quantified name => name
  | .arrow params result =>
    "(" ++ String.intercalate ", " (effectToStringList params) ++ ") => " ++ effectToString result

def effectToStringList : List Effect → List String
  | [] => []
  | e :: es => effectToString e :: effectToStringList es

end

/-- JS compares characters by code unit; these names are compared through the
numeric value of the underlying characters. -/
def charLtNat (c d : Char) : Bool := c.val.toNat < d.val.toNat

/-- Lexicographic strict order on character lists, the order JS uses on
strings. -/
def strLtAux : List Char → List Char → Bool
  | [], [] => false
  | [], _ :: _ => true
  | _ :: _, [] => false
  | c :: cs, d :: ds => if c = d then strLtAux cs ds else charLtNat c d

/-- The JS `>` comparison on strings, used by the sort comparator. -/
def jsStrGt (a b : String) : Bool := strLtAux b.data a.data

/-- Insertion step for `sortStrings`, placing `x` before the first element it
does not compare greater than (the comparator `(n1, n2) => n1 > n2 ? 1 : -1`
moves `n1` after `n2` exactly when `n1 > n2`). -/
def insertSorted (x : String) : List String → List String
  | [] => [x]
  | y :: ys => if jsStrGt x y then y :: insertSorted x ys else x :: y :: ys

/-- The value computed by the source's `sortStrings`: `Array.prototype.sort`
with comparator `(n1, n2) => n1 > n2 ? 1 : -1`, which sorts the strings
ascending (equal strings are indistinguishable values).  The source's sort
also mutates the caller's array in place; that observable side effect is
modelled separately by `varsAfterSameVars`. -/
def sortStrings (l : List String) : List String := l.foldr insertSorted []

/-- Compares two name lists after sorting both: same length and pointwise
equal. -/
def sameVars (v1 v2 : List String) : Bool :=
  let v1s := sortStrings v1
  let v2s := sortStrings v2
  v1s.length == v2s.length && (List.zip v1s v2s).all fun p => p.1 == p.2

/-- Contents of either argument array of `sameVars` after the call returns:
`sortStrings` uses `Array.prototype.sort`, which sorts the caller's array in
place, so the array ends up sorted even though `sameVars` only reads it. -/
def varsAfterSameVars (l : List String) : List String := sortStrings l

/-- The value of `Array.from(new Set(l))` for strings: deduplication by value
keeping first occurrences. -/
def jsSetDedupAux (seen : List String) : List String → List String
  | [] => []
  | x :: xs => if seen.contains x then jsSetDedupAux seen xs else x :: jsSetDedupAux (x :: seen) xs

def jsSetDedup (l : List String) : List String := jsSetDedupAux [] l

mutual

/-- Collects every concrete state-variable name reachable in a bag. -/
def findVars : Variables → List String
  | .quantified _ => []
  | .concrete vs => vs
  | .union cs => findVarsList cs

def findVarsList : List Variables → List String
  | [] => []
  | c :: cs => findVars c ++ findVarsList cs

end

/-- The quantified and spliced-union part of the `flattenUnions` union case:
the source pushes quantified children as they are, skips concrete children
(their names go to `collectConcreteVars`), and splices the children of union
children. -/
def collectUnionVars : List Variables → List Variables
  | [] => []
  | .quantified n :: rest => .quantified n :: collectUnionVars rest
  | .concrete _ :: rest => collectUnionVars rest
  | .union vs :: rest => vs ++ collectUnionVars rest

/-- The concrete-name part of the `flattenUnions` union case: the names of the
direct concrete children, in order. -/
def collectConcreteVars : List Variables → List String
  | [] => []
  | .concrete vs :: rest => vs ++ collectConcreteVars rest
  | .quantified _ :: rest => collectConcreteVars rest
  | .union _ :: rest => collectConcreteVars rest

/-- The reconstruction step of the union case of `flattenUnions`, operating on
the already-flattened children: push quantified children and the members of
union children into `unionVariables`, collect the names of concrete children
into `vars`, and rebuild per the source's final conditionals (the
`variables[0]` indexing of the source is total there because `unionVariables`
is non-empty; `headD` mirrors it). -/
def rebuildUnion (flattenVariables : List Variables) : Variables :=
  let unionVariables := collectUnionVars flattenVariables
  let vars := collectConcreteVars flattenVariables
  if unionVariables.length > 0 then
    let variables2 :=
      if vars.length > 0 then unionVariables ++ [Variables.concrete vars] else unionVariables
    if variables2.length > 1 then .union variables2 else variables2.headD (.concrete [])
  else
    .concrete vars

mutual

/-- Flattens a union bag: recursively flatten the children, then rebuild
(see `rebuildUnion`); concrete and quantified bags are returned unchanged. -/
def flattenUnions : Variables → Variables
  | .union cs => rebuildUnion (flattenUnionsList cs)
  | v => v

def flattenUnionsList : List Variables → List Variables
  | [] => []
  | c :: cs => flattenUnions c :: flattenUnionsList cs

end

mutual

/-- Deduplicates names inside concrete bags.  In the union case the source
wraps the mapped children in `Array.from(new Set(...))`, a set of object
references: distinct structural constructions are distinct objects, so on
alias-free values that wrapper is the identity and the case is modelled as the
plain recursive map. -/
def uniqueVariables : Variables → Variables
  | .quantified n => .quantified n
  | .concrete vs => .concrete (jsSetDedup vs)
  | .union cs => .union (uniqueVariablesList cs)

def uniqueVariablesList : List Variables → List Variables
  | [] => []
  | c :: cs => uniqueVariables c :: uniqueVariablesList cs

end

mutual

/-- Enumerates the quantified names in a bag, tagged with kind `var`
(source kind string `'variable'`). -/
def variablesNames : Variables → List Name
  | .concrete _ => []
  | .quantified n => [⟨NameKind.var, n⟩]
  | .union cs => variablesNamesList cs

def variablesNamesList : List Variables → List Name
  | [] => []
  | c :: cs => variablesNames c ++ variablesNamesList cs

end

mutual

/-- Enumerates the quantified names in an effect, tagged with their kind. -/
def effectNames : Effect → List Name
  | .concrete rd up => variablesNames rd ++ variablesNames up
  | .arrow params result => effectNamesList params ++ effectNames result
  | .quantified n => [⟨NameKind.effect, n⟩]

def effectNamesList : List Effect → List Name
  | [] => []
  | e :: es => effectNames e ++ effectNamesList es

end

/-- The source guards its bind functions with
`names.includes({ kind: ..., name: ... })`.  `Array.prototype.includes`
compares objects with SameValueZero, which on objects is reference equality;
the freshly allocated object literal passed as the argument is never reference
equal to any element of the array, so the test is identically `false` and the
cyclical-binding branches below are dead code. -/
def jsIncludesFreshObject (_xs : List Name) (_x : Name) : Bool := false

/-- Binds a quantified effect name to an effect.  The occurs-check intended by
the guard never fires (see `jsIncludesFreshObject`). -/
def bindEffect (name : String) (effect : Effect) : Except String Substitution :=
  if jsIncludesFreshObject (effectNames effect) ⟨NameKind.effect, name⟩ then
    .error ("Can't bind " ++ name ++ " to " ++ effectToString effect ++ ": cyclical binding")
  else
    .ok (Substitution.effect name effect)

/-- Binds a quantified bag name to a bag.  The occurs-check intended by the
guard never fires (see `jsIncludesFreshObject`). -/
def bindVariables (name : String) (vs : Variables) : Except String Substitution :=
  if jsIncludesFreshObject (variablesNames vs) ⟨NameKind.var, name⟩ then
    .error ("Can't bind " ++ name ++ " to " ++ variablesToString vs ++ ": cyclical binding")
  else
    .ok (Substitution.var name vs)

/-- `mergeInMany` from the Either library: all `right`s give a `right` of the
list of values; otherwise a `left` collecting every error in order. -/
def mergeInMany {α : Type} (xs : List (Except ErrorTree α)) : Except (List ErrorTree) (List α) :=
  let errs := xs.filterMap fun x => match x with | .error t => some t | .ok _ => none
  if errs.isEmpty then
    .ok (xs.filterMap fun x => match x with | .ok a => some a | .error _ => none)
  else
    .error errs

/-- Wraps an inner error under an outer location, dropping the outer node when
a single inner error already carries the same location. -/
def buildErrorTree (location : String) (errors : UnifyError) : ErrorTree :=
  match errors with
  | .one t => if t.location == location then t else .mk none location [t]
  | .many ts => .mk none location ts

/-- A leaf error node. -/
def buildErrorLeaf (location message : String) : ErrorTree :=
  .mk (some message) location []

mutual

/-- Applies substitutions to a bag: a quantified bag is replaced when the
first binding found for its name is of kind `var`; concrete bags are
unchanged; unions are mapped. -/
def applySubstitutionToVariables (subs : List Substitution) : Variables → Variables
  | .quantified n =>
    match subs.find? fun s => s.name == n with
    | some (.var _ value) => value
    | _ => .quantified n
  | .union cs => .union (applySubstitutionToVariablesList subs cs)
  | .concrete vs => .concrete vs

def applySubstitutionToVariablesList (subs : List Substitution) : List Variables → List Variables
  | [] => []
  | c :: cs => applySubstitutionToVariables subs c :: applySubstitutionToVariablesList subs cs

end

/-- Simplifies a concrete effect: dedupe and flatten the read bag, flatten the
update bag, and fail when some concrete name is updated more than once (the
repetition test runs on the original update bag). -/
def simplifyConcreteEffect (rd up : Variables) : Except ErrorTree Effect :=
  let read := uniqueVariables (flattenUnions rd)
  let update := flattenUnions up
  let updateVars := findVars up
  let repeated := updateVars.filter fun v => (updateVars.filter fun v2 => v == v2).length > 1
  if repeated.length > 0 then
    .error (.mk (some ("Multiple updates of variable(s): " ++ String.intercalate "," (jsSetDedup repeated)))
      ("Trying to simplify effect " ++ effectToString (.concrete rd up)) [])
  else
    .ok (.concrete read update)

/-- The simplification step the unifier and the substitution engine apply to
every effect: concrete effects go through `simplifyConcreteEffect`, the other
kinds pass through unchanged. -/
def simplifyEffect : Effect → Except ErrorTree Effect
  | .concrete rd up => simplifyConcreteEffect rd up
  | e => .ok e

mutual

/-- Applies substitutions to an effect, replacing quantified names bound at
kind `effect`, mapping through arrows, and substituting inside concrete bags;
every result is chained through the simplification step. -/
def applySubstitution (subs : List Substitution) : Effect → Except ErrorTree Effect
  | .quantified name =>
    let result : Except ErrorTree Effect :=
      match subs.find? fun s => s.name == name with
      | some (.effect _ value) => .ok value
      | _ => .ok (.quantified name)
    match result with
    | .ok e => simplifyEffect e
    | .error t => .error t
  | .arrow params res =>
    let location := "Applying substitution to arrow effect " ++ effectToString (.arrow params res)
    let result : Except ErrorTree Effect :=
      match mergeInMany (applySubstitutionList subs params) with
      | .error errs => .error (buildErrorTree location (.many errs))
      | .ok ps =>
        match applySubstitution subs res with
        | .error e => .error (buildErrorTree location (.one e))
        | .ok r => .ok (.arrow ps r)
    match result with
    | .ok e => simplifyEffect e
    | .error t => .error t
  | .concrete rd up =>
    simplifyEffect (.concrete (applySubstitutionToVariables subs rd) (applySubstitutionToVariables subs up))

def applySubstitutionList (subs : List Substitution) : List Effect → List (Except ErrorTree Effect)
  | [] => []
  | e :: es => applySubstitution subs e :: applySubstitutionList subs es

end

/-- Applies substitutions to the value field of a single binding, simplifying
effect values. -/
def applySubstitutionsToSubstitution (subs : List Substitution) (s : Substitution) :
    Except ErrorTree Substitution :=
  match s with
  | .effect n value =>
    match applySubstitution subs value with
    | .ok v => .ok (.effect n v)
    | .error t => .error t
  | .var n value => .ok (.var n (applySubstitutionToVariables subs value))

/-- The `${s1}` interpolation of a substitution array in a template literal
prints `[object Object]` for each element, comma-separated. -/
def substitutionsToJsString (s : List Substitution) : String :=
  String.intercalate "," (s.map fun _ => "[object Object]")

/-- Composes two substitution lists: apply `s1` through the values of `s2`
and append the result to `s1`. -/
def compose (s1 s2 : List Substitution) : Except ErrorTree (List Substitution) :=
  match mergeInMany (s2.map (applySubstitutionsToSubstitution s1)) with
  | .ok s => .ok (s1 ++ s)
  | .error errs =>
    .error (buildErrorTree
      ("Composing substitutions " ++ substitutionsToJsString s1 ++ " and " ++ substitutionsToJsString s2)
      (.many errs))

/-- Unifies two variable bags after flattening both, following the source's
branch order: concrete/concrete by sorted-name comparison, identical
quantified names, binding of a quantified side, structural (serialized)
equality, and the declared union-unification limitation. -/
def unifyVariables (va vb : Variables) : Except ErrorTree (List Substitution) :=
  let v1 := flattenUnions va
  let v2 := flattenUnions vb
  let location := "Trying to unify variables [" ++ variablesToString v1 ++ "] and ["
    ++ variablesToString v2 ++ "]"
  match v1, v2 with
  | .concrete vs1, .concrete vs2 =>
    if sameVars vs1 vs2 then
      .ok []
    else
      .error (.mk (some ("Expected variables [" ++ String.intercalate "," vs1 ++ "] and ["
        ++ String.intercalate "," vs2 ++ "] to be the same")) location [])
  | .quantified n1, .quantified n2 =>
    if n1 = n2 then
      .ok []
    else
      match bindVariables n1 (.quantified n2) with
      | .ok sub => .ok [sub]
      | .error msg => .error (buildErrorLeaf location msg)
  | .quantified n1, _ =>
    match bindVariables n1 v2 with
    | .ok sub => .ok [sub]
    | .error msg => .error (buildErrorLeaf location msg)
  | _, .quantified n2 =>
    match bindVariables n2 v1 with
    | .ok sub => .ok [sub]
    | .error msg => .error (buildErrorLeaf location msg)
  | _, _ =>
    if v1 = v2 then
      .ok []
    else
      .error (.mk (some "Unification for unions of variables is not implemented") location [])

/-- The source's `ensureConcreteEffect` throws on a non-concrete effect; that
branch is unreachable at its call site because applying a substitution to a
concrete effect yields a concrete effect (`applySubstitution_concrete_shape`),
so the fallback value here is never produced. -/
def ensureConcreteEffect : Effect → Variables × Variables
  | .concrete rd up => (rd, up)
  | _ => (emptyVariables, emptyVariables)

/-- Unifies two concrete effects: unify the read bags, apply the resulting
substitutions to both effects, unify the update bags, and concatenate the two
substitution lists (the final `merge` returns the first error). -/
def unifyConcrete (location : String) (r1 u1 r2 u2 : Variables) :
    Except UnifyError (List Substitution) :=
  let readRes := unifyVariables r1 r2
  let updateRes : Except UnifyError (List Substitution) :=
    match readRes with
    | .error e => .error (.one e)
    | .ok subs =>
      match applySubstitution subs (.concrete r1 u1), applySubstitution subs (.concrete r2 u2) with
      | .ok e1s, .ok e2s =>
        match unifyVariables (ensureConcreteEffect e1s).2 (ensureConcreteEffect e2s).2 with
        | .ok s => .ok s
        | .error e => .error (.one e)
      | .error a, .error b => .error (.many [a, b])
      | .error a, .ok _ => .error (.many [a])
      | .ok _, .error b => .error (.many [b])
  match readRes, updateRes with
  | .ok s1, .ok s2 => .ok (s1 ++ s2)
  | .error e, _ => .error (.one e)
  | .ok _, .error e => .error e

/-- Applies the accumulated substitutions to both effects, unifies the
results with the supplied recursive unifier, and composes the new
substitutions onto the accumulated ones.  The recursive unifier is passed as
a function (with its fuel already applied) so that `unify` below is
structurally recursive on its fuel. -/
def applySubstitutionsAndUnify
    (unifyF : Effect → Effect → Option (Except ErrorTree (List Substitution)))
    (subs : List Substitution) (e1 e2 : Effect) :
    Option (Except UnifyError (List Substitution)) :=
  match applySubstitution subs e1, applySubstitution subs e2 with
  | .ok a, .ok b =>
    match unifyF a b with
    | none => none
    | some (.error t) => some (.error (.one t))
    | some (.ok newSubs) =>
      match compose subs newSubs with
      | .error t => some (.error (.one t))
      | .ok s => some (.ok s)
  | .error a, .error b => some (.error (.many [a, b]))
  | .error a, .ok _ => some (.error (.many [a]))
  | .ok _, .error b => some (.error (.many [b]))

/-- The source's `reduce` over parameter positions: the accumulated result is
threaded through `chain`, so an error is carried unchanged to the end. -/
def foldParams (unifyF : Effect → Effect → Option (Except ErrorTree (List Substitution))) :
    List (Effect × Effect) → Option (Except UnifyError (List Substitution)) →
    Option (Except UnifyError (List Substitution))
  | [], acc => acc
  | (a, b) :: rest, acc =>
    match acc with
    | none => none
    | some (.error e) => foldParams unifyF rest (some (.error e))
    | some (.ok subs) => foldParams unifyF rest (applySubstitutionsAndUnify unifyF subs a b)

/-- Unifies two arrow effects: arity check, then a fold over the parameter
pairs carrying a running substitution, then the results. -/
def unifyArrows (unifyF : Effect → Effect → Option (Except ErrorTree (List Substitution)))
    (location : String) (p1 : List Effect) (q1 : Effect)
    (p2 : List Effect) (q2 : Effect) : Option (Except UnifyError (List Substitution)) :=
  if p1.length ≠ p2.length then
    some (.error (.one (.mk (some ("Expected " ++ toString p1.length ++ " arguments, got "
      ++ toString p2.length)) location [])))
  else
    match foldParams unifyF (List.zip p1 p2) (some (.ok [])) with
    | none => none
    | some (.error e) => some (.error e)
    | some (.ok subs) => applySubstitutionsAndUnify unifyF subs q1 q2

/-- Unifies two effects.  The source recursion is not structural (arrow
unification recurses on substituted parameters), so the embedding takes a fuel
parameter; `none` means the fuel ran out, `some` is the source's result. -/
def unify : Nat → Effect → Effect → Option (Except ErrorTree (List Substitution))
  | 0, _, _ => none
  | Nat.succ fuel, ea, eb =>
    let location := "Trying to unify " ++ effectToString ea ++ " and " ++ effectToString eb
    match simplifyEffect ea, simplifyEffect eb with
    | .error t1, .error t2 => some (.error (buildErrorTree location (.many [t1, t2])))
    | .error t1, .ok _ => some (.error (buildErrorTree location (.many [t1])))
    | .ok _, .error t2 => some (.error (buildErrorTree location (.many [t2])))
    | .ok e1, .ok e2 =>
      let inner : Option (Except UnifyError (List Substitution)) :=
        match e1, e2 with
        | .arrow p1 q1, .arrow p2 q2 =>
          unifyArrows (fun a b => unify fuel a b) location p1 q1 p2 q2
        | .concrete r1 u1, .concrete r2 u2 => some (unifyConcrete location r1 u1 r2 u2)
        | .quantified n1, _ =>
          some (match bindEffect n1 e2 with
            | .ok sub => .ok [sub]
            | .error msg => .error (.one (buildErrorLeaf location msg)))
        | _, .quantified n2 =>
          some (match bindEffect n2 e1 with
            | .ok sub => .ok [sub]
            | .error msg => .error (.one (buildErrorLeaf location msg)))
        | _, _ =>
          some (.error (.one (.mk (some "Can't unify different types of effects") location [])))
      match inner with
      | none => none
      | some (.error err) => some (.error (buildErrorTree location err))
      | some (.ok subs) => some (.ok subs)

/-- Kind test for arrow effects. -/
def isArrowB : Effect → Bool
  | .arrow _ _ => true
  | _ => false

/-- Kind test for union bags. -/
def isUnionB : Variables → Bool
  | .union _ => true
  | _ => false

/-- Kind test for quantified bags. -/
def isQuantifiedB : Variables → Bool
  | .quantified _ => true
  | _ => false

/-- Success test for a result of the internal unification steps. -/
def uOk {α : Type} : Except UnifyError α → Bool
  | .ok _ => true
  | .error _ => false

/-- Success test for an `ErrorTree`-typed result. -/
def eOk {ε α : Type} : Except ε α → Bool
  | .ok _ => true
  | .error _ => false

/-- Success test for a fueled unification result (`none`, the out-of-fuel
marker, does not count as success). -/
def unifyResultOk : Option (Except ErrorTree (List Substitution)) → Bool
  | some (.ok _) => true
  | _ => false

mutual

/-- Checks the flattening invariant at every depth: no union node directly
contains another union node. -/
def noNestedUnions : Variables → Bool
  | .union cs => noNestedUnionsList cs
  | _ => true

def noNestedUnionsList : List Variables → Bool
  | [] => true
  | c :: cs => !(isUnionB c) && noNestedUnions c && noNestedUnionsList cs

end

/-- Modelled from the amended claim for applying a substitution to a
quantified effect: look up the FIRST binding whose name matches; if that
binding has kind `effect` return its value (simplified), otherwise return the
quantified effect unchanged, even when an effect-kind binding for the same
name occurs later in the list. -/
def applyToQuantifiedSpec (subs : List Substitution) (n : String) : Except ErrorTree Effect :=
  match subs.find? fun s => s.name == n with
  | some (.effect _ value) => simplifyEffect value
  | _ => .ok (.quantified n)

/-- C1: the claim states that `bindEffect(n, e)` errors with a
cyclical-binding message whenever the `effectNames` walk of `e` enumerates
`n`.  Evaluated at the failing input `n = "e1"`, `e = Quantified "e1"`: the
walk does enumerate the name at kind `effect`, yet `bindEffect` succeeds and
returns the cyclical binding, because the `includes` guard compares a fresh
object literal by reference and is identically false. -/
theorem c1_bind_effect_ignores_occurs_check :
    effectNames (.quantified "e1") = [⟨NameKind.effect, "e1"⟩]
    ∧ bindEffect "e1" (.quantified "e1") = .ok (.effect "e1" (.quantified "e1")) :=
  ⟨rfl, rfl⟩

/-- C2: the claim states that a successful unification yields a substitution
under which both sides become equal.  Evaluated at `a = Quantified "a"` and
`b = (a) => a`: unification succeeds with the cyclical binding
`a ↦ (a) => a` (the occurs-check is dead code), and applying that
substitution to `a` and to `b` gives structurally different effects. -/
theorem c2_unify_unsound_at_cyclical_binding :
    unify 2 (.quantified "a") (.arrow [.quantified "a"] (.quantified "a"))
      = some (.ok [.effect "a" (.arrow [.quantified "a"] (.quantified "a"))])
    ∧ applySubstitution [.effect "a" (.arrow [.quantified "a"] (.quantified "a"))]
        (.quantified "a")
      = .ok (.arrow [.quantified "a"] (.quantified "a"))
    ∧ applySubstitution [.effect "a" (.arrow [.quantified "a"] (.quantified "a"))]
        (.arrow [.quantified "a"] (.quantified "a"))
      = .ok (.arrow [.arrow [.quantified "a"] (.quantified "a")]
          (.arrow [.quantified "a"] (.quantified "a")))
    ∧ Effect.arrow [.quantified "a"] (.quantified "a")
      ≠ .arrow [.arrow [.quantified "a"] (.quantified "a")]
          (.arrow [.quantified "a"] (.quantified "a")) :=
  ⟨rfl, rfl, rfl, by decide⟩

/-- C3: the claim states that `unify` leaves its arguments' concrete bags
unchanged, in the same order.  Evaluated at two concrete effects whose update
bags hold the same names in different orders: unification succeeds, and on the
way it calls `sameVars` on the callers' very arrays (`flattenUnions`,
`applySubstitutionToVariables` and `simplifyConcreteEffect` all pass concrete
bags through by reference), whose in-place sort leaves the first argument's
update bag as `["x", "y"]` instead of the original `["y", "x"]`. -/
theorem c3_unify_sorts_callers_update_bag :
    unify 1 (.concrete (.concrete []) (.concrete ["y", "x"]))
        (.concrete (.concrete []) (.concrete ["x", "y"]))
      = some (.ok [])
    ∧ varsAfterSameVars ["y", "x"] = ["x", "y"]
    ∧ ["x", "y"] ≠ ["y", "x"] :=
  ⟨rfl, rfl, by decide⟩

/-- C4 counterexample: flattening the union of two unions that each pair a
quantified bag with a concrete bag splices the inner members, leaving two
distinct concrete bags among the top-level children, against the claim that
all concrete names are collected into one single bag. -/
theorem c4_counterexample_two_concrete_children :
    flattenUnions (.union [.union [.quantified "v1", .concrete ["x"]],
        .union [.quantified "v2", .concrete ["y"]]])
      = .union [.quantified "v1", .concrete ["x"], .quantified "v2", .concrete ["y"]]
    ∧ ([Variables.quantified "v1", .concrete ["x"], .quantified "v2", .concrete ["y"]].countP
        fun c => match c with | .concrete _ => true | _ => false) = 2 :=
  ⟨rfl, rfl⟩

/-- C5 counterexample: simplification is not idempotent.  On a concrete
effect whose read bag is a union of unions, the first pass splices the inner
unions keeping two concrete bags, and only the second pass merges those bags,
so the first and second results differ structurally. -/
theorem c5_counterexample_not_idempotent :
    simplifyEffect (.concrete (.union [.union [.quantified "v1", .concrete ["x"]],
        .union [.quantified "v2", .concrete ["y"]]]) (.concrete []))
      = .ok (.concrete
          (.union [.quantified "v1", .concrete ["x"], .quantified "v2", .concrete ["y"]])
          (.concrete []))
    ∧ simplifyEffect (.concrete
          (.union [.quantified "v1", .concrete ["x"], .quantified "v2", .concrete ["y"]])
          (.concrete []))
      = .ok (.concrete (.union [.quantified "v1", .quantified "v2", .concrete ["x", "y"]])
          (.concrete []))
    ∧ Effect.concrete
          (.union [.quantified "v1", .concrete ["x"], .quantified "v2", .concrete ["y"]])
          (.concrete [])
      ≠ .concrete (.union [.quantified "v1", .quantified "v2", .concrete ["x", "y"]])
          (.concrete []) :=
  ⟨rfl, rfl, by decide⟩

/-- C6 counterexample: with a variable-kind binding for `n` before an
effect-kind binding for `n`, applying the substitution to `Quantified n`
returns `Quantified n` unchanged, although an effect-kind binding for `n` is
present in the list — `find` stops at the first name match regardless of
kind. -/
theorem c6_counterexample_shadowed_effect_binding :
    applySubstitution [.var "n" (.concrete []), .effect "n" (.quantified "m")] (.quantified "n")
      = .ok (.quantified "n")
    ∧ Substitution.effect "n" (.quantified "m")
        ∈ [Substitution.var "n" (.concrete []), .effect "n" (.quantified "m")]
    ∧ Effect.quantified "n" ≠ .quantified "m" :=
  ⟨rfl, by decide, by decide⟩

/-- C7 counterexample: the composition law fails.  With
`s1 = [a ↦ Quantified b]` and `s2 = [b ↦ Read['x']]`, composing gives
`s1 ++ s2` (applying `s1` through `s2` changes nothing), and applying the
composition to `Quantified a` stops at `s1`'s binding and returns
`Quantified b`, while the right-hand side of the law continues through `s2`
and returns `Read['x']`. -/
theorem c7_counterexample_composition_law_fails :
    compose [.effect "a" (.quantified "b")]
        [.effect "b" (.concrete (.concrete ["x"]) (.concrete []))]
      = .ok [.effect "a" (.quantified "b"),
          .effect "b" (.concrete (.concrete ["x"]) (.concrete []))]
    ∧ applySubstitution [Substitution.effect "a" (.quantified "b"),
          .effect "b" (.concrete (.concrete ["x"]) (.concrete []))] (.quantified "a")
      = .ok (.quantified "b")
    ∧ (applySubstitution [Substitution.effect "a" (.quantified "b")] (.quantified "a")).bind
        (applySubstitution [Substitution.effect "b" (.concrete (.concrete ["x"]) (.concrete []))])
      = .ok (.concrete (.concrete ["x"]) (.concrete []))
    ∧ Effect.quantified "b" ≠ .concrete (.concrete ["x"]) (.concrete []) :=
  ⟨rfl, rfl, rfl, by decide⟩

/-- C8 counterexample, both halves of the claim.  Substitutions: the two
directions of unification succeed but yield substitutions that are not
extensionally equal — `unify(Quantified a, Quantified b)` binds `a ↦ b` while
the swapped call binds `b ↦ a`, and the two substitutions already disagree on
the effect `Quantified a`.  Success: for two arrow effects even success is
not symmetric — `unify((a, a) => a, (b, Read[x]) => Read['u'] & Update[x])`
succeeds (after the parameters, the left result is still a quantified name
that the final step blindly binds), while the swapped call fails (there the
left result's name was bound to `Read[x]` by the second parameter, so the
final step compares two concrete effects whose bags differ). -/
theorem c8_counterexample_substitutions_differ :
    unify 1 (.quantified "a") (.quantified "b") = some (.ok [.effect "a" (.quantified "b")])
    ∧ unify 1 (.quantified "b") (.quantified "a") = some (.ok [.effect "b" (.quantified "a")])
    ∧ applySubstitution [.effect "a" (.quantified "b")] (.quantified "a")
      = .ok (.quantified "b")
    ∧ applySubstitution [.effect "b" (.quantified "a")] (.quantified "a")
      = .ok (.quantified "a")
    ∧ Effect.quantified "b" ≠ .quantified "a"
    ∧ unifyResultOk (unify 3
        (.arrow [.quantified "a", .quantified "a"] (.quantified "a"))
        (.arrow [.quantified "b", .concrete (.quantified "x") (.concrete [])]
          (.concrete (.concrete ["u"]) (.quantified "x")))) = true
    ∧ unifyResultOk (unify 3
        (.arrow [.quantified "b", .concrete (.quantified "x") (.concrete [])]
          (.concrete (.concrete ["u"]) (.quantified "x")))
        (.arrow [.quantified "a", .quantified "a"] (.quantified "a"))) = false :=
  ⟨rfl, rfl, rfl, rfl, by decide, rfl, rfl⟩

/-- C6 amended: applying a substitution list to `Quantified n` is decided by
the FIRST binding in the list whose name is `n`: its value (simplified) when
that binding has kind `effect`, and `Quantified n` unchanged otherwise — a
variable-kind binding with the same name shadows any later effect-kind
binding. -/
theorem c6_apply_quantified_first_match (subs : List Substitution) (n : String) :
    applySubstitution subs (.quantified n) = applyToQuantifiedSpec subs n := by
  unfold applySubstitution applyToQuantifiedSpec
  cases hf : subs.find? fun s => s.name == n with
  | none => simp [hf, simplifyEffect]
  | some s =>
    cases s with
    | var m v => simp [hf, simplifyEffect]
    | effect m v => simp [hf]

/-- C7 amended: the composition law holds for a quantified effect whose name
is not bound in `s1`: when applying `s1` through `s2` succeeds with `s2'`,
`compose(s1, s2) = s1 ++ s2'`, applying `s1` leaves `Quantified n` unchanged,
and applying the composition to `Quantified n` agrees with applying `s2'`.
For names bound in `s1`, and for concrete effects (which the application
re-simplifies), the law fails — see the counterexample. -/
theorem c7_composition_law_for_unbound_names (s1 s2 s2' : List Substitution) (n : String)
    (hm : mergeInMany (s2.map (applySubstitutionsToSubstitution s1)) = .ok s2')
    (hn : ∀ b ∈ s1, b.name ≠ n) :
    compose s1 s2 = .ok (s1 ++ s2')
    ∧ applySubstitution s1 (.quantified n) = .ok (.quantified n)
    ∧ applySubstitution (s1 ++ s2') (.quantified n) = applySubstitution s2' (.quantified n) := by
  have hfind : s1.find? (fun s => s.name == n) = none := by
    rw [List.find?_eq_none]
    intro x hx
    simp [hn x hx]
  refine ⟨?_, ?_, ?_⟩
  · unfold compose
    rw [hm]
  · unfold applySubstitution
    simp [hfind, simplifyEffect]
  · have happ : (s1 ++ s2').find? (fun s => s.name == n) = s2'.find? (fun s => s.name == n) := by
      rw [List.find?_append, hfind]
      rfl
    unfold applySubstitution
    rw [happ]

/-- C7 witness: instantiated at `s1 = [a ↦ Quantified b]`, `s2 = []` and the
unbound name `c`. -/
theorem c7_composition_law_for_unbound_names_witness :
    mergeInMany (([] : List Substitution).map
        (applySubstitutionsToSubstitution [Substitution.effect "a" (.quantified "b")])) = .ok []
    ∧ (∀ b ∈ [Substitution.effect "a" (.quantified "b")], b.name ≠ "c")
    ∧ (compose [Substitution.effect "a" (.quantified "b")] []
        = .ok ([Substitution.effect "a" (.quantified "b")] ++ [])
      ∧ applySubstitution [Substitution.effect "a" (.quantified "b")] (.quantified "c")
        = .ok (.quantified "c")
      ∧ applySubstitution ([Substitution.effect "a" (.quantified "b")] ++ []) (.quantified "c")
        = applySubstitution [] (.quantified "c")) :=
  ⟨rfl, by decide, c7_composition_law_for_unbound_names _ _ _ _ rfl (by decide)⟩

/-- C10: when both bags flatten to non-quantified values, at least one of
which is a union, the bag unifier succeeds with the empty substitution on
structurally identical values and otherwise fails with the leaf message
"Unification for unions of variables is not implemented". -/
theorem c10_union_unification_not_implemented (v1 v2 : Variables)
    (h1 : isQuantifiedB (flattenUnions v1) = false)
    (h2 : isQuantifiedB (flattenUnions v2) = false)
    (h3 : isUnionB (flattenUnions v1) = true ∨ isUnionB (flattenUnions v2) = true) :
    (flattenUnions v1 = flattenUnions v2 → unifyVariables v1 v2 = .ok [])
    ∧ (flattenUnions v1 ≠ flattenUnions v2 →
        unifyVariables v1 v2 = .error (.mk
          (some "Unification for unions of variables is not implemented")
          ("Trying to unify variables [" ++ variablesToString (flattenUnions v1) ++ "] and ["
            ++ variablesToString (flattenUnions v2) ++ "]") [])) := by
  unfold unifyVariables
  rcases hf1 : flattenUnions v1 with vs1 | n1 | cs1 <;>
    rcases hf2 : flattenUnions v2 with vs2 | n2 | cs2 <;>
    simp_all [isQuantifiedB, isUnionB] <;>
    constructor <;>
    intro heq <;>
    simp_all

/-- C10 witness: a union of a quantified and a concrete bag (its own
flattening) against a distinct concrete bag. -/
theorem c10_union_unification_not_implemented_witness :
    isQuantifiedB (flattenUnions (.union [.quantified "v", .concrete ["x"]])) = false
    ∧ isQuantifiedB (flattenUnions (Variables.concrete ["y"])) = false
    ∧ isUnionB (flattenUnions (.union [.quantified "v", .concrete ["x"]])) = true
    ∧ unifyVariables (.union [.quantified "v", .concrete ["x"]]) (.concrete ["y"])
      = .error (.mk (some "Unification for unions of variables is not implemented")
          ("Trying to unify variables ["
            ++ variablesToString (flattenUnions (.union [.quantified "v", .concrete ["x"]]))
            ++ "] and [" ++ variablesToString (flattenUnions (Variables.concrete ["y"])) ++ "]") []) :=
  ⟨rfl, rfl, rfl,
    (c10_union_unification_not_implemented (.union [.quantified "v", .concrete ["x"]])
      (.concrete ["y"]) rfl rfl (Or.inl rfl)).2 (by decide)⟩

theorem findVarsList_append (l1 l2 : List Variables) :
    findVarsList (l1 ++ l2) = findVarsList l1 ++ findVarsList l2 := by
  induction l1 with
  | nil => rfl
  | cons c cs ih => simp [findVarsList, ih]

/-- Splitting the children of a union into the spliced/quantified part and the
collected direct concrete names preserves the concrete names up to order. -/
theorem collect_split_perm : ∀ fs : List Variables,
    (findVarsList fs).Perm (findVarsList (collectUnionVars fs) ++ collectConcreteVars fs)
  | [] => by simp [findVarsList, collectUnionVars, collectConcreteVars]
  | .quantified n :: rest => by
      simpa [findVarsList, collectUnionVars, collectConcreteVars, findVars]
        using collect_split_perm rest
  | .concrete vs :: rest => by
      have ih := collect_split_perm rest
      simp only [findVarsList, collectUnionVars, collectConcreteVars, findVars]
      have h1 := ih.append_left vs
      have h2 : ((vs ++ findVarsList (collectUnionVars rest)) ++ collectConcreteVars rest).Perm
          ((findVarsList (collectUnionVars rest) ++ vs) ++ collectConcreteVars rest) :=
        (List.perm_append_comm).append_right _
      exact h1.trans (by simpa [List.append_assoc] using h2)
  | .union ws :: rest => by
      have ih := collect_split_perm rest
      simp only [findVarsList, collectUnionVars, collectConcreteVars, findVars,
        findVarsList_append, List.append_assoc]
      exact ih.append_left _

/-- The reconstruction step of flattening preserves the concrete names of the
flattened children up to order. -/
theorem findVars_rebuild_perm (fs : List Variables) :
    (findVars (rebuildUnion fs)).Perm (findVarsList fs) := by
  have hsplit := collect_split_perm fs
  unfold rebuildUnion
  by_cases h1 : (collectUnionVars fs).length > 0
  · by_cases h2 : (collectConcreteVars fs).length > 0
    · have hlen : ((collectUnionVars fs) ++ [Variables.concrete (collectConcreteVars fs)]).length > 1 := by
        simp
        omega
      simp only [h1, h2, hlen, if_pos, if_true]
      have : findVars (.union (collectUnionVars fs ++ [Variables.concrete (collectConcreteVars fs)]))
          = findVarsList (collectUnionVars fs) ++ collectConcreteVars fs := by
        simp [findVars, findVarsList_append, findVarsList]
      rw [this]
      exact hsplit.symm
    · have hv : collectConcreteVars fs = [] := by
        simpa using List.length_eq_zero.mp (by omega)
      by_cases h3 : (collectUnionVars fs).length > 1
      · simp only [h1, h2, h3, if_pos, if_neg, if_false, if_true]
        have heq : findVars (.union (collectUnionVars fs)) = findVarsList (collectUnionVars fs) := rfl
        rw [heq]
        rw [hv] at hsplit
        simpa using hsplit.symm
      · have hone : (collectUnionVars fs).length = 1 := by omega
        rcases List.length_eq_one.mp hone with ⟨w, hw⟩
        simp only [h1, h2, h3, if_pos, if_neg, if_false, hw]
        have hsymm := hsplit.symm
        rw [hw, hv] at hsymm
        simpa [findVarsList, findVars] using hsymm
  · have hu : collectUnionVars fs = [] := by
      simpa using List.length_eq_zero.mp (by omega)
    simp only [h1, if_neg, if_false]
    have := hsplit.symm
    rw [hu] at this
    simpa [findVars, findVarsList] using this

mutual

/-- Flattening preserves the multiset of concrete state-variable names. -/
theorem findVars_flatten_perm : ∀ v : Variables, (findVars (flattenUnions v)).Perm (findVars v)
  | .concrete vs => by simp [flattenUnions]
  | .quantified n => by simp [flattenUnions]
  | .union cs => by
      have h := findVarsList_flatten_perm cs
      have h2 := findVars_rebuild_perm (flattenUnionsList cs)
      simpa [flattenUnions, findVars] using h2.trans h

theorem findVarsList_flatten_perm : ∀ cs : List Variables,
    (findVarsList (flattenUnionsList cs)).Perm (findVarsList cs)
  | [] => by simp [flattenUnionsList]
  | c :: cs => by
      have h1 := findVars_flatten_perm c
      have h2 := findVarsList_flatten_perm cs
      simpa [flattenUnionsList, findVarsList] using h1.append h2

end

/-- C4 amended: the union case of `flattenUnions` collects only the names of
the DIRECT concrete children into a single bag appended at the end, while the
members of union children are spliced inline — so the result can retain
several concrete children (see the counterexample) — and the whole
reorganisation preserves the concrete state-variable names up to
reordering. -/
theorem c4_flatten_preserves_concrete_names (v : Variables) :
    (findVars (flattenUnions v)).Perm (findVars v) :=
  findVars_flatten_perm v

theorem noNestedUnionsList_iff (l : List Variables) :
    noNestedUnionsList l = true ↔ ∀ x ∈ l, isUnionB x = false ∧ noNestedUnions x = true := by
  induction l with
  | nil => simp [noNestedUnionsList]
  | cons c cs ih =>
    simp [noNestedUnionsList, ih]
    try tauto

theorem noNestedUnions_of_not_union (v : Variables) (h : isUnionB v = false) :
    noNestedUnions v = true := by
  cases v with
  | concrete vs => rfl
  | quantified n => rfl
  | union cs => simp [isUnionB] at h

theorem collectUnionVars_props (fs : List Variables)
    (h : ∀ f ∈ fs, noNestedUnions f = true) :
    ∀ x ∈ collectUnionVars fs, isUnionB x = false ∧ noNestedUnions x = true := by
  induction fs with
  | nil => simp [collectUnionVars]
  | cons c rest ih =>
    have hrest : ∀ f ∈ rest, noNestedUnions f = true := fun f hf => h f (by simp [hf])
    cases c with
    | quantified n =>
      intro x hx
      simp [collectUnionVars] at hx
      rcases hx with hx | hx
      · subst hx; exact ⟨rfl, rfl⟩
      · exact ih hrest x hx
    | concrete vs =>
      intro x hx
      simp only [collectUnionVars] at hx
      exact ih hrest x hx
    | union ws =>
      intro x hx
      simp only [collectUnionVars, List.mem_append] at hx
      rcases hx with hx | hx
      · have hu : noNestedUnions (.union ws) = true := h _ (by simp)
        have : noNestedUnionsList ws = true := by simpa [noNestedUnions] using hu
        exact (noNestedUnionsList_iff ws).mp this x hx
      · exact ih hrest x hx

theorem rebuildUnion_noNested (fs : List Variables)
    (h : ∀ f ∈ fs, noNestedUnions f = true) :
    noNestedUnions (rebuildUnion fs) = true := by
  have hprops := collectUnionVars_props fs h
  unfold rebuildUnion
  by_cases h1 : (collectUnionVars fs).length > 0
  · by_cases h2 : (collectConcreteVars fs).length > 0
    · have hlen : ((collectUnionVars fs) ++ [Variables.concrete (collectConcreteVars fs)]).length > 1 := by
        simp
        omega
      simp only [h1, h2, hlen, if_pos, if_true]
      have : noNestedUnionsList (collectUnionVars fs ++ [Variables.concrete (collectConcreteVars fs)]) = true := by
        rw [noNestedUnionsList_iff]
        intro x hx
        rcases List.mem_append.mp hx with hx | hx
        · exact hprops x hx
        · simp at hx
          subst hx
          exact ⟨rfl, rfl⟩
      simpa [noNestedUnions] using this
    · by_cases h3 : (collectUnionVars fs).length > 1
      · simp only [h1, h2, h3, if_pos, if_neg, if_false, if_true]
        have : noNestedUnionsList (collectUnionVars fs) = true := by
          rw [noNestedUnionsList_iff]
          exact hprops
        simpa [noNestedUnions] using this
      · have hone : (collectUnionVars fs).length = 1 := by omega
        rcases List.length_eq_one.mp hone with ⟨w, hw⟩
        simp only [h1, h2, h3, if_pos, if_neg, if_false, hw]
        have hwmem : w ∈ collectUnionVars fs := by simp [hw]
        exact (hprops w hwmem).2
  · simp only [h1, if_neg, if_false]
    rfl

mutual

/-- The flattening invariant: no union node in a flattening result directly
contains another union node, at any depth. -/
theorem flattenUnions_noNested : ∀ v : Variables, noNestedUnions (flattenUnions v) = true
  | .concrete vs => by simp [flattenUnions, noNestedUnions]
  | .quantified n => by simp [flattenUnions, noNestedUnions]
  | .union cs => by
      have h := flattenUnionsList_noNested cs
      simpa [flattenUnions] using rebuildUnion_noNested (flattenUnionsList cs) h

theorem flattenUnionsList_noNested : ∀ cs : List Variables,
    ∀ f ∈ flattenUnionsList cs, noNestedUnions f = true
  | [] => by simp [flattenUnionsList]
  | c :: cs => by
      intro f hf
      simp only [flattenUnionsList, List.mem_cons] at hf
      rcases hf with hf | hf
      · subst hf
        exact flattenUnions_noNested c
      · exact flattenUnionsList_noNested cs f hf

end

/-- C9: after `flattenUnions`, no union node reachable in the result directly
contains another union node — the flattening invariant holds at every depth
of the result. -/
theorem c9_flatten_no_nested_unions (v : Variables) :
    noNestedUnions (flattenUnions v) = true :=
  flattenUnions_noNested v

/-- C9 witness: the invariant evaluated on a nested union. -/
theorem c9_flatten_no_nested_unions_witness :
    noNestedUnions (flattenUnions (.union [.union [.quantified "v", .concrete ["x"]],
        .concrete ["y"]])) = true :=
  c9_flatten_no_nested_unions (.union [.union [.quantified "v", .concrete ["x"]],
    .concrete ["y"]])

/-- C4 witness: the name-preservation permutation evaluated on the union of
two mixed unions. -/
theorem c4_flatten_preserves_concrete_names_witness :
    (findVars (flattenUnions (.union [.union [.quantified "w1", .concrete ["x"]],
        .union [.quantified "w2", .concrete ["y"]]]))).Perm
      (findVars (.union [.union [.quantified "w1", .concrete ["x"]],
        .union [.quantified "w2", .concrete ["y"]]])) :=
  c4_flatten_preserves_concrete_names (.union [.union [.quantified "w1", .concrete ["x"]],
    .union [.quantified "w2", .concrete ["y"]]])

/-- C6 witness: the first-match description evaluated on a one-binding
substitution. -/
theorem c6_apply_quantified_first_match_witness :
    applySubstitution [Substitution.effect "k" (.quantified "m")] (.quantified "k")
      = applyToQuantifiedSpec [Substitution.effect "k" (.quantified "m")] "k" :=
  c6_apply_quantified_first_match [Substitution.effect "k" (.quantified "m")] "k"

theorem flattenUnions_not_union (v : Variables) (h : isUnionB v = false) :
    flattenUnions v = v := by
  cases v with
  | concrete vs => rfl
  | quantified n => rfl
  | union cs => simp [isUnionB] at h

theorem flattenUnionsList_id (cs : List Variables) (h : ∀ c ∈ cs, isUnionB c = false) :
    flattenUnionsList cs = cs := by
  induction cs with
  | nil => rfl
  | cons c rest ih =>
    simp only [flattenUnionsList]
    rw [flattenUnions_not_union c (h c (by simp)), ih (fun x hx => h x (by simp [hx]))]

theorem collectUnionVars_append (l1 l2 : List Variables) :
    collectUnionVars (l1 ++ l2) = collectUnionVars l1 ++ collectUnionVars l2 := by
  induction l1 with
  | nil => rfl
  | cons c rest ih => cases c <;> simp [collectUnionVars, ih]

theorem collectConcreteVars_append (l1 l2 : List Variables) :
    collectConcreteVars (l1 ++ l2) = collectConcreteVars l1 ++ collectConcreteVars l2 := by
  induction l1 with
  | nil => rfl
  | cons c rest ih => cases c <;> simp [collectConcreteVars, ih]

theorem collectUnionVars_quantifieds_id (l : List Variables)
    (h : ∀ x ∈ l, isQuantifiedB x = true) : collectUnionVars l = l := by
  induction l with
  | nil => rfl
  | cons c rest ih =>
    have hrest := ih fun x hx => h x (by simp [hx])
    cases c with
    | quantified n => simp [collectUnionVars, hrest]
    | concrete vs => simpa [isQuantifiedB] using h (.concrete vs) (by simp)
    | union ws => simpa [isQuantifiedB] using h (.union ws) (by simp)

theorem collectConcreteVars_quantifieds_nil (l : List Variables)
    (h : ∀ x ∈ l, isQuantifiedB x = true) : collectConcreteVars l = [] := by
  induction l with
  | nil => rfl
  | cons c rest ih =>
    have hrest := ih fun x hx => h x (by simp [hx])
    cases c with
    | quantified n => simp [collectConcreteVars, hrest]
    | concrete vs => simpa [isQuantifiedB] using h (.concrete vs) (by simp)
    | union ws => simpa [isQuantifiedB] using h (.union ws) (by simp)

theorem collectUnionVars_all_quantified (fs : List Variables)
    (h : ∀ f ∈ fs, isUnionB f = false) :
    ∀ x ∈ collectUnionVars fs, isQuantifiedB x = true := by
  induction fs with
  | nil => simp [collectUnionVars]
  | cons c rest ih =>
    have hrest := ih fun x hx => h x (by simp [hx])
    cases c with
    | quantified n =>
      intro x hx
      rcases List.mem_cons.mp (by simpa [collectUnionVars] using hx) with hx | hx
      · subst hx; rfl
      · exact hrest x hx
    | concrete vs =>
      intro x hx
      exact hrest x (by simpa [collectUnionVars] using hx)
    | union ws => simpa [isUnionB] using h (.union ws) (by simp)

theorem jsSetDedupAux_contains_false (l : List String) :
    ∀ seen : List String, ∀ x ∈ jsSetDedupAux seen l, seen.contains x = false := by
  induction l with
  | nil => simp [jsSetDedupAux]
  | cons a rest ih =>
    intro seen x hx
    by_cases ha : seen.contains a = true
    · rw [jsSetDedupAux, if_pos ha] at hx
      exact ih seen x hx
    · rw [jsSetDedupAux, if_neg ha] at hx
      rcases List.mem_cons.mp hx with hx | hx
      · subst hx
        exact Bool.not_eq_true _ |>.mp ha
      · have h2 := ih (a :: seen) x hx
        rw [List.contains_cons] at h2
        exact (Bool.or_eq_false_iff.mp h2).2

theorem jsSetDedupAux_nodup (l : List String) :
    ∀ seen : List String, (jsSetDedupAux seen l).Nodup := by
  induction l with
  | nil => simp [jsSetDedupAux]
  | cons a rest ih =>
    intro seen
    by_cases ha : seen.contains a = true
    · rw [jsSetDedupAux, if_pos ha]
      exact ih seen
    · rw [jsSetDedupAux, if_neg ha]
      refine List.nodup_cons.mpr ⟨?_, ih (a :: seen)⟩
      intro hmem
      have h2 := jsSetDedupAux_contains_false rest (a :: seen) a hmem
      rw [List.contains_cons] at h2
      simp at h2

theorem jsSetDedupAux_id (l : List String) :
    ∀ seen : List String, l.Nodup → (∀ x ∈ l, seen.contains x = false) →
    jsSetDedupAux seen l = l := by
  induction l with
  | nil => intro seen _ _; rfl
  | cons a rest ih =>
    intro seen hn hs
    have ha : ¬ seen.contains a = true := by
      rw [hs a (by simp)]
      simp
    rw [jsSetDedupAux, if_neg ha]
    have hrn := (List.nodup_cons.mp hn).2
    have hna := (List.nodup_cons.mp hn).1
    rw [ih (a :: seen) hrn ?_]
    intro x hx
    rw [List.contains_cons]
    have h1 : (x == a) = false := by
      refine beq_eq_false_iff_ne.mpr ?_
      intro hxa
      subst hxa
      exact hna hx
    rw [h1, hs x (by simp [hx])]
    rfl

theorem jsSetDedup_idem (l : List String) : jsSetDedup (jsSetDedup l) = jsSetDedup l :=
  jsSetDedupAux_id (jsSetDedup l) [] (jsSetDedupAux_nodup l []) (by simp)

theorem jsSetDedup_ne_nil (l : List String) (h : l ≠ []) : jsSetDedup l ≠ [] := by
  cases l with
  | nil => simp at h
  | cons a rest => simp [jsSetDedup, jsSetDedupAux]

theorem uniqueVariablesList_append (l1 l2 : List Variables) :
    uniqueVariablesList (l1 ++ l2) = uniqueVariablesList l1 ++ uniqueVariablesList l2 := by
  induction l1 with
  | nil => rfl
  | cons c rest ih => simp [uniqueVariablesList, ih]

theorem uniqueVariablesList_quantifieds_id (l : List Variables)
    (h : ∀ x ∈ l, isQuantifiedB x = true) : uniqueVariablesList l = l := by
  induction l with
  | nil => rfl
  | cons c rest ih =>
    have hrest := ih fun x hx => h x (by simp [hx])
    cases c with
    | quantified n => simp [uniqueVariablesList, uniqueVariables, hrest]
    | concrete vs => simpa [isQuantifiedB] using h (.concrete vs) (by simp)
    | union ws => simpa [isQuantifiedB] using h (.union ws) (by simp)

theorem isUnionB_unique (v : Variables) : isUnionB (uniqueVariables v) = isUnionB v := by
  cases v <;> simp [uniqueVariables, isUnionB]

mutual

theorem noNested_unique : ∀ v : Variables,
    noNestedUnions (uniqueVariables v) = noNestedUnions v
  | .concrete vs => rfl
  | .quantified n => rfl
  | .union cs => by
      simp [uniqueVariables, noNestedUnions, noNestedList_unique cs]

theorem noNestedList_unique : ∀ l : List Variables,
    noNestedUnionsList (uniqueVariablesList l) = noNestedUnionsList l
  | [] => rfl
  | c :: cs => by
      simp [uniqueVariablesList, noNestedUnionsList, noNested_unique c,
        noNestedList_unique cs, isUnionB_unique c]

end

theorem isQuantifiedB_not_union (x : Variables) (h : isQuantifiedB x = true) :
    isUnionB x = false := by
  cases x <;> simp_all [isQuantifiedB, isUnionB]

/-- A flattening reconstruction over non-union children is a fixpoint of
`flattenUnions`. -/
theorem rebuildUnion_flatten_fixpoint (fs : List Variables)
    (h : ∀ f ∈ fs, isUnionB f = false) :
    flattenUnions (rebuildUnion fs) = rebuildUnion fs := by
  have hq := collectUnionVars_all_quantified fs h
  simp only [rebuildUnion]
  by_cases h1 : (collectUnionVars fs).length > 0
  · rw [if_pos h1]
    by_cases h2 : (collectConcreteVars fs).length > 0
    · rw [if_pos h2]
      have h3 : (collectUnionVars fs ++ [Variables.concrete (collectConcreteVars fs)]).length > 1 := by
        simp
        omega
      rw [if_pos h3]
      have hnl : ∀ c ∈ collectUnionVars fs ++ [Variables.concrete (collectConcreteVars fs)],
          isUnionB c = false := by
        intro c hc
        rcases List.mem_append.mp hc with hc | hc
        · exact isQuantifiedB_not_union c (hq c hc)
        · simp at hc
          subst hc
          rfl
      have hstep : flattenUnions (.union (collectUnionVars fs
            ++ [Variables.concrete (collectConcreteVars fs)]))
          = rebuildUnion (collectUnionVars fs ++ [Variables.concrete (collectConcreteVars fs)]) := by
        simp [flattenUnions, flattenUnionsList_id _ hnl]
      rw [hstep]
      simp only [rebuildUnion, collectUnionVars_append, collectConcreteVars_append,
        collectUnionVars_quantifieds_id _ hq, collectConcreteVars_quantifieds_nil _ hq,
        collectUnionVars, collectConcreteVars, List.append_nil, List.nil_append]
      rw [if_pos h1, if_pos h2, if_pos h3]
    · rw [if_neg h2]
      by_cases h4 : (collectUnionVars fs).length > 1
      · rw [if_pos h4]
        have hnl : ∀ c ∈ collectUnionVars fs, isUnionB c = false := fun c hc =>
          isQuantifiedB_not_union c (hq c hc)
        have hstep : flattenUnions (.union (collectUnionVars fs))
            = rebuildUnion (collectUnionVars fs) := by
          simp [flattenUnions, flattenUnionsList_id _ hnl]
        rw [hstep]
        simp only [rebuildUnion, collectUnionVars_quantifieds_id _ hq,
          collectConcreteVars_quantifieds_nil _ hq, List.length_nil]
        rw [if_pos h1, if_neg (by omega : ¬ (0 : Nat) > 0), if_pos h4]
      · rw [if_neg h4]
        have hone : (collectUnionVars fs).length = 1 := by omega
        rcases List.length_eq_one.mp hone with ⟨w, hw⟩
        have hwq : isQuantifiedB w = true := hq w (by simp [hw])
        rw [hw]
        exact flattenUnions_not_union w (isQuantifiedB_not_union w hwq)
  · rw [if_neg h1]
    rfl

/-- On values satisfying the flattening invariant, `flattenUnions` is
idempotent. -/
theorem flattenUnions_idem_of_noNested (u : Variables) (h : noNestedUnions u = true) :
    flattenUnions (flattenUnions u) = flattenUnions u := by
  cases u with
  | concrete vs => rfl
  | quantified n => rfl
  | union cs =>
    have hcs : ∀ c ∈ cs, isUnionB c = false := by
      have hl := (noNestedUnionsList_iff cs).mp (by simpa [noNestedUnions] using h)
      exact fun c hc => (hl c hc).1
    have hstep : flattenUnions (.union cs) = rebuildUnion cs := by
      simp [flattenUnions, flattenUnionsList_id cs hcs]
    rw [hstep]
    exact rebuildUnion_flatten_fixpoint cs hcs

/-- On values satisfying the flattening invariant, a second
dedupe-and-flatten round reaches a fixpoint of the round. -/
theorem unique_flatten_stable (y : Variables) (hy : noNestedUnions y = true) :
    uniqueVariables (flattenUnions (uniqueVariables (flattenUnions y)))
      = uniqueVariables (flattenUnions y) := by
  cases y with
  | concrete vs => simp [flattenUnions, uniqueVariables, jsSetDedup_idem]
  | quantified n => rfl
  | union cs =>
    have hcs : ∀ c ∈ cs, isUnionB c = false := by
      have hl := (noNestedUnionsList_iff cs).mp (by simpa [noNestedUnions] using hy)
      exact fun c hc => (hl c hc).1
    have hq := collectUnionVars_all_quantified cs hcs
    have hstep : flattenUnions (.union cs) = rebuildUnion cs := by
      simp [flattenUnions, flattenUnionsList_id cs hcs]
    rw [hstep]
    simp only [rebuildUnion]
    by_cases h1 : (collectUnionVars cs).length > 0
    · rw [if_pos h1]
      by_cases h2 : (collectConcreteVars cs).length > 0
      · rw [if_pos h2]
        have h3 : (collectUnionVars cs ++ [Variables.concrete (collectConcreteVars cs)]).length > 1 := by
          simp
          omega
        rw [if_pos h3]
        -- the dedupe round keeps the shape and dedupes the final bag
        have hdd : (jsSetDedup (collectConcreteVars cs)).length > 0 := by
          have hne : collectConcreteVars cs ≠ [] := by
            intro hnil
            rw [hnil] at h2
            simp at h2
          exact List.length_pos.mpr (jsSetDedup_ne_nil _ hne)
        have huniq : uniqueVariables (.union (collectUnionVars cs
              ++ [Variables.concrete (collectConcreteVars cs)]))
            = .union (collectUnionVars cs
              ++ [Variables.concrete (jsSetDedup (collectConcreteVars cs))]) := by
          simp [uniqueVariables, uniqueVariablesList_append,
            uniqueVariablesList_quantifieds_id _ hq, uniqueVariablesList]
        rw [huniq]
        have hnl : ∀ c ∈ collectUnionVars cs
            ++ [Variables.concrete (jsSetDedup (collectConcreteVars cs))], isUnionB c = false := by
          intro c hc
          rcases List.mem_append.mp hc with hc | hc
          · exact isQuantifiedB_not_union c (hq c hc)
          · simp at hc
            subst hc
            rfl
        have hstep2 : flattenUnions (.union (collectUnionVars cs
              ++ [Variables.concrete (jsSetDedup (collectConcreteVars cs))]))
            = rebuildUnion (collectUnionVars cs
              ++ [Variables.concrete (jsSetDedup (collectConcreteVars cs))]) := by
          simp [flattenUnions, flattenUnionsList_id _ hnl]
        rw [hstep2]
        simp only [rebuildUnion, collectUnionVars_append, collectConcreteVars_append,
          collectUnionVars_quantifieds_id _ hq, collectConcreteVars_quantifieds_nil _ hq,
          collectUnionVars, collectConcreteVars, List.append_nil, List.nil_append]
        have h3' : (collectUnionVars cs
            ++ [Variables.concrete (jsSetDedup (collectConcreteVars cs))]).length > 1 := by
          simp
          omega
        rw [if_pos h1, if_pos hdd, if_pos h3']
        simp [uniqueVariables, uniqueVariablesList_append,
          uniqueVariablesList_quantifieds_id _ hq, uniqueVariablesList, jsSetDedup_idem]
      · rw [if_neg h2]
        by_cases h4 : (collectUnionVars cs).length > 1
        · rw [if_pos h4]
          have huniq : uniqueVariables (.union (collectUnionVars cs))
              = .union (collectUnionVars cs) := by
            simp [uniqueVariables, uniqueVariablesList_quantifieds_id _ hq]
          rw [huniq]
          have hnl : ∀ c ∈ collectUnionVars cs, isUnionB c = false := fun c hc =>
            isQuantifiedB_not_union c (hq c hc)
          have hstep2 : flattenUnions (.union (collectUnionVars cs))
              = rebuildUnion (collectUnionVars cs) := by
            simp [flattenUnions, flattenUnionsList_id _ hnl]
          rw [hstep2]
          simp only [rebuildUnion, collectUnionVars_quantifieds_id _ hq,
            collectConcreteVars_quantifieds_nil _ hq, List.length_nil]
          rw [if_pos h1, if_neg (by omega : ¬ (0 : Nat) > 0), if_pos h4]
          exact huniq
        · rw [if_neg h4]
          have hone : (collectUnionVars cs).length = 1 := by omega
          rcases List.length_eq_one.mp hone with ⟨w, hw⟩
          have hwq : isQuantifiedB w = true := hq w (by simp [hw])
          rw [hw]
          cases w with
          | quantified m => rfl
          | concrete vs => simp [isQuantifiedB] at hwq
          | union ws => simp [isQuantifiedB] at hwq
    · rw [if_neg h1]
      simp [uniqueVariables, flattenUnions, jsSetDedup_idem]

theorem beq_comm_str (a b : String) : (a == b) = (b == a) := by
  by_cases h : a = b
  · subst h
    rfl
  · rw [beq_eq_false_iff_ne.mpr h, beq_eq_false_iff_ne.mpr (Ne.symm h)]

/-- The source's repeated-update filter is non-empty exactly when the update
names hold a duplicate. -/
theorem repeated_filter_iff (l : List String) :
    ((l.filter fun v => (l.filter fun v2 => v == v2).length > 1).length > 0) ↔ ¬ l.Nodup := by
  have hcount : ∀ v, (l.filter fun v2 => v == v2).length = l.count v := by
    intro v
    rw [List.count, List.countP_eq_length_filter]
    congr 1
    apply List.filter_congr
    intro x _
    rw [beq_comm_str]
  simp only [hcount]
  rw [gt_iff_lt, List.length_pos]
  constructor
  · intro hne hnd
    rcases List.exists_mem_of_ne_nil _ hne with ⟨v, hv⟩
    have := List.of_mem_filter hv
    have hle := (List.nodup_iff_count_le_one.mp hnd) v
    simp at this
    omega
  · intro hnd hnil
    rcases (by simpa [List.nodup_iff_count_le_one, not_forall] using hnd : ∃ v, ¬ l.count v ≤ 1)
      with ⟨v, hv⟩
    have hmem : v ∈ l := by
      have : 0 < l.count v := by omega
      exact List.count_pos_iff.mp this
    have : v ∈ l.filter fun v => l.count v > 1 := by
      refine List.mem_filter.mpr ⟨hmem, by simp; omega⟩
    rw [hnil] at this
    simp at this

/-- A concrete effect with duplicate-free update names simplifies to the
deduped-and-flattened form. -/
theorem simplifyConcreteEffect_of_nodup (rd up : Variables) (h : (findVars up).Nodup) :
    simplifyConcreteEffect rd up
      = .ok (.concrete (uniqueVariables (flattenUnions rd)) (flattenUnions up)) := by
  unfold simplifyConcreteEffect
  have hrep : ¬ ((findVars up).filter
      fun v => ((findVars up).filter fun v2 => v == v2).length > 1).length > 0 :=
    fun hc => (repeated_filter_iff _).mp hc h
  rw [if_neg hrep]

/-- A successful simplification implies duplicate-free update names and pins
the result's shape. -/
theorem simplifyConcreteEffect_ok_inv (rd up : Variables) (e : Effect)
    (h : simplifyConcreteEffect rd up = .ok e) :
    (findVars up).Nodup
    ∧ e = .concrete (uniqueVariables (flattenUnions rd)) (flattenUnions up) := by
  unfold simplifyConcreteEffect at h
  by_cases hrep : ((findVars up).filter
      fun v => ((findVars up).filter fun v2 => v == v2).length > 1).length > 0
  · rw [if_pos hrep] at h
    cases h
  · rw [if_neg hrep] at h
    exact ⟨not_not.mp fun hn => hrep ((repeated_filter_iff _).mpr hn),
      (Except.ok.inj h).symm⟩

/-- C5 amended: simplification is not idempotent (see the counterexample),
but it stabilizes after two rounds: whenever `simplify(e)` succeeds with `e1`,
`simplify(e1)` succeeds with some `e2`, and `e2` is a fixpoint of
simplification; non-concrete effects pass through unchanged. -/
theorem c5_simplify_stabilizes (e e1 : Effect) (h : simplifyEffect e = .ok e1) :
    ∃ e2, simplifyEffect e1 = .ok e2 ∧ simplifyEffect e2 = .ok e2 := by
  cases e with
  | quantified n =>
    have he : e1 = .quantified n := by
      simpa [simplifyEffect] using h.symm
    subst he
    exact ⟨.quantified n, rfl, rfl⟩
  | arrow ps r =>
    have he : e1 = .arrow ps r := by
      simpa [simplifyEffect] using h.symm
    subst he
    exact ⟨.arrow ps r, rfl, rfl⟩
  | concrete rd up =>
    obtain ⟨hnd, he1⟩ := simplifyConcreteEffect_ok_inv rd up e1 (by simpa [simplifyEffect] using h)
    subst he1
    have hnd1 : (findVars (flattenUnions up)).Nodup :=
      ((findVars_flatten_perm up).nodup_iff).mpr hnd
    have h2 : simplifyEffect (.concrete (uniqueVariables (flattenUnions rd)) (flattenUnions up))
        = .ok (.concrete (uniqueVariables (flattenUnions (uniqueVariables (flattenUnions rd))))
            (flattenUnions (flattenUnions up))) := by
      simpa [simplifyEffect] using
        simplifyConcreteEffect_of_nodup (uniqueVariables (flattenUnions rd)) (flattenUnions up) hnd1
    refine ⟨_, h2, ?_⟩
    have hnd2 : (findVars (flattenUnions (flattenUnions up))).Nodup :=
      ((findVars_flatten_perm (flattenUnions up)).nodup_iff).mpr hnd1
    have h3 := simplifyConcreteEffect_of_nodup
      (uniqueVariables (flattenUnions (uniqueVariables (flattenUnions rd))))
      (flattenUnions (flattenUnions up)) hnd2
    have hup : flattenUnions (flattenUnions (flattenUnions up)) = flattenUnions (flattenUnions up) :=
      flattenUnions_idem_of_noNested (flattenUnions up) (flattenUnions_noNested up)
    have hrd : uniqueVariables (flattenUnions (uniqueVariables
          (flattenUnions (uniqueVariables (flattenUnions rd)))))
        = uniqueVariables (flattenUnions (uniqueVariables (flattenUnions rd))) := by
      refine unique_flatten_stable (uniqueVariables (flattenUnions rd)) ?_
      rw [noNested_unique]
      exact flattenUnions_noNested rd
    show simplifyEffect (.concrete _ _) = _
    rw [show simplifyEffect (.concrete (uniqueVariables (flattenUnions (uniqueVariables
          (flattenUnions rd)))) (flattenUnions (flattenUnions up)))
        = simplifyConcreteEffect (uniqueVariables (flattenUnions (uniqueVariables
          (flattenUnions rd)))) (flattenUnions (flattenUnions up)) from rfl, h3, hup, hrd]

/-- C5 witness: stabilization evaluated on a concrete effect with a
duplicated read name. -/
theorem c5_simplify_stabilizes_witness :
    simplifyEffect (.concrete (.concrete ["x", "x"]) (.concrete []))
      = .ok (.concrete (.concrete ["x"]) (.concrete []))
    ∧ ∃ e2, simplifyEffect (.concrete (.concrete ["x"]) (.concrete [])) = .ok e2
        ∧ simplifyEffect e2 = .ok e2 :=
  ⟨rfl, c5_simplify_stabilizes (.concrete (.concrete ["x", "x"]) (.concrete []))
    (.concrete (.concrete ["x"]) (.concrete [])) rfl⟩

mutual

/-- Renames the quantified names of a bag through a function on names; used
to relate the two directions of unification, whose read-stage bindings
collapse a pair of quantified names in opposite directions. -/
def renameVars (f : String → String) : Variables → Variables
  | .concrete vs => .concrete vs
  | .quantified n => .quantified (f n)
  | .union cs => .union (renameVarsList f cs)

def renameVarsList (f : String → String) : List Variables → List Variables
  | [] => []
  | c :: cs => renameVars f c :: renameVarsList f cs

end

mutual

theorem renameVars_id : ∀ v : Variables, renameVars (fun k => k) v = v
  | .concrete vs => rfl
  | .quantified n => rfl
  | .union cs => by simp [renameVars, renameVarsList_id cs]

theorem renameVarsList_id : ∀ l : List Variables, renameVarsList (fun k => k) l = l
  | [] => rfl
  | c :: cs => by simp [renameVarsList, renameVars_id c, renameVarsList_id cs]

end

mutual

theorem renameVars_comp (f g : String → String) : ∀ v : Variables,
    renameVars f (renameVars g v) = renameVars (fun k => f (g k)) v
  | .concrete vs => rfl
  | .quantified n => rfl
  | .union cs => by simp [renameVars, renameVarsList_comp f g cs]

theorem renameVarsList_comp (f g : String → String) : ∀ l : List Variables,
    renameVarsList f (renameVarsList g l) = renameVarsList (fun k => f (g k)) l
  | [] => rfl
  | c :: cs => by simp [renameVarsList, renameVars_comp f g c, renameVarsList_comp f g cs]

end

mutual

theorem renameVars_congr (f g : String → String) (hfg : ∀ k, f k = g k) :
    ∀ v : Variables, renameVars f v = renameVars g v
  | .concrete vs => rfl
  | .quantified n => by simp [renameVars, hfg n]
  | .union cs => by simp [renameVars, renameVarsList_congr f g hfg cs]

theorem renameVarsList_congr (f g : String → String) (hfg : ∀ k, f k = g k) :
    ∀ l : List Variables, renameVarsList f l = renameVarsList g l
  | [] => rfl
  | c :: cs => by
      simp [renameVarsList, renameVars_congr f g hfg c, renameVarsList_congr f g hfg cs]

end

mutual

theorem findVars_rename (f : String → String) : ∀ v : Variables,
    findVars (renameVars f v) = findVars v
  | .concrete vs => rfl
  | .quantified n => rfl
  | .union cs => by simp [renameVars, findVars, findVarsList_rename f cs]

theorem findVarsList_rename (f : String → String) : ∀ l : List Variables,
    findVarsList (renameVarsList f l) = findVarsList l
  | [] => rfl
  | c :: cs => by simp [renameVarsList, findVarsList, findVars_rename f c, findVarsList_rename f cs]

end

mutual

theorem renameVars_inj (f : String → String) (hf : Function.Injective f) :
    ∀ x y : Variables, renameVars f x = renameVars f y → x = y
  | .concrete a, .concrete b => by simp [renameVars]
  | .concrete _, .quantified _ => by simp [renameVars]
  | .concrete _, .union _ => by simp [renameVars]
  | .quantified _, .concrete _ => by simp [renameVars]
  | .quantified a, .quantified b => by
      simp only [renameVars, Variables.quantified.injEq]
      exact fun h => hf h
  | .quantified _, .union _ => by simp [renameVars]
  | .union _, .concrete _ => by simp [renameVars]
  | .union _, .quantified _ => by simp [renameVars]
  | .union a, .union b => by
      simp only [renameVars, Variables.union.injEq]
      exact fun h => renameVarsList_inj f hf a b h

theorem renameVarsList_inj (f : String → String) (hf : Function.Injective f) :
    ∀ x y : List Variables, renameVarsList f x = renameVarsList f y → x = y
  | [], [] => by simp
  | [], _ :: _ => by simp [renameVarsList]
  | _ :: _, [] => by simp [renameVarsList]
  | a :: as, b :: bs => by
      simp only [renameVarsList, List.cons.injEq]
      exact fun ⟨h1, h2⟩ => ⟨renameVars_inj f hf a b h1, renameVarsList_inj f hf as bs h2⟩

end

theorem renameVarsList_append (f : String → String) (l1 l2 : List Variables) :
    renameVarsList f (l1 ++ l2) = renameVarsList f l1 ++ renameVarsList f l2 := by
  induction l1 with
  | nil => rfl
  | cons c cs ih => simp [renameVarsList, ih]

theorem renameVarsList_length (f : String → String) (l : List Variables) :
    (renameVarsList f l).length = l.length := by
  induction l with
  | nil => rfl
  | cons c cs ih => simp [renameVarsList, ih]

theorem collectUnionVars_rename (f : String → String) (fs : List Variables) :
    collectUnionVars (renameVarsList f fs) = renameVarsList f (collectUnionVars fs) := by
  induction fs with
  | nil => rfl
  | cons c rest ih =>
    cases c with
    | quantified n => simp [renameVarsList, renameVars, collectUnionVars, ih]
    | concrete vs => simp [renameVarsList, renameVars, collectUnionVars, ih]
    | union ws => simp [renameVarsList, renameVars, collectUnionVars, ih, renameVarsList_append]

theorem collectConcreteVars_rename (f : String → String) (fs : List Variables) :
    collectConcreteVars (renameVarsList f fs) = collectConcreteVars fs := by
  induction fs with
  | nil => rfl
  | cons c rest ih =>
    cases c with
    | quantified n => simp [renameVarsList, renameVars, collectConcreteVars, ih]
    | concrete vs => simp [renameVarsList, renameVars, collectConcreteVars, ih]
    | union ws => simp [renameVarsList, renameVars, collectConcreteVars, ih]

theorem rebuildUnion_rename (f : String → String) (fs : List Variables) :
    rebuildUnion (renameVarsList f fs) = renameVars f (rebuildUnion fs) := by
  simp only [rebuildUnion, collectUnionVars_rename, collectConcreteVars_rename,
    renameVarsList_length]
  by_cases h1 : (collectUnionVars fs).length > 0
  · rw [if_pos h1, if_pos h1]
    by_cases h2 : (collectConcreteVars fs).length > 0
    · rw [if_pos h2, if_pos h2]
      have hlen : ((collectUnionVars fs) ++ [Variables.concrete (collectConcreteVars fs)]).length > 1 := by
        simp
        omega
      have hlen2 : ((renameVarsList f (collectUnionVars fs))
          ++ [Variables.concrete (collectConcreteVars fs)]).length > 1 := by
        simp [renameVarsList_length]
        omega
      rw [if_pos hlen, if_pos hlen2]
      simp [renameVars, renameVarsList_append, renameVarsList]
    · rw [if_neg h2, if_neg h2]
      by_cases h4 : (collectUnionVars fs).length > 1
      · have h4' : (renameVarsList f (collectUnionVars fs)).length > 1 := by
          rw [renameVarsList_length]
          exact h4
        rw [if_pos h4, if_pos h4']
        simp [renameVars]
      · have h4' : ¬ (renameVarsList f (collectUnionVars fs)).length > 1 := by
          rw [renameVarsList_length]
          exact h4
        rw [if_neg h4, if_neg h4']
        have hone : (collectUnionVars fs).length = 1 := by omega
        rcases List.length_eq_one.mp hone with ⟨w, hw⟩
        rw [hw]
        simp [renameVarsList]
  · rw [if_neg h1, if_neg h1]
    rfl

mutual

theorem flattenUnions_rename (f : String → String) : ∀ v : Variables,
    flattenUnions (renameVars f v) = renameVars f (flattenUnions v)
  | .concrete vs => rfl
  | .quantified n => rfl
  | .union cs => by
      simp only [renameVars, flattenUnions]
      rw [flattenUnionsList_rename f cs, rebuildUnion_rename]

theorem flattenUnionsList_rename (f : String → String) : ∀ l : List Variables,
    flattenUnionsList (renameVarsList f l) = renameVarsList f (flattenUnionsList l)
  | [] => rfl
  | c :: cs => by
      simp [renameVarsList, flattenUnionsList, flattenUnions_rename f c,
        flattenUnionsList_rename f cs]

end

/-- The renaming that substitutes a single quantified bag name. -/
def substFn (n m : String) : String → String := fun k => if k = n then m else k

/-- The transposition of two names. -/
def swapFn (n1 n2 : String) : String → String :=
  fun k => if k = n1 then n2 else if k = n2 then n1 else k

theorem swapFn_involutive (n1 n2 : String) : Function.Involutive (swapFn n1 n2) := by
  intro k
  unfold swapFn
  by_cases h1 : k = n1
  · subst h1
    rw [if_pos rfl]
    by_cases h2 : n2 = k
    · rw [if_pos h2, h2]
    · rw [if_neg h2, if_pos rfl]
  · rw [if_neg h1]
    by_cases h2 : k = n2
    · rw [if_pos h2, if_pos rfl, h2]
    · rw [if_neg h2, if_neg h1, if_neg h2]

theorem swapFn_injective (n1 n2 : String) : Function.Injective (swapFn n1 n2) :=
  (swapFn_involutive n1 n2).injective

/-- Composing the collapse `n1 ↦ n2` with the transposition of `n1` and `n2`
gives the opposite collapse `n2 ↦ n1`. -/
theorem swap_comp_subst (n1 n2 : String) (h : n1 ≠ n2) (k : String) :
    swapFn n1 n2 (substFn n1 n2 k) = substFn n2 n1 k := by
  unfold swapFn substFn
  by_cases h1 : k = n1
  · subst h1
    simp [h, Ne.symm h]
  · by_cases h2 : k = n2
    · subst h2
      simp [h1, Ne.symm h]
    · simp [h1, h2]

mutual

/-- A single variable-kind binding whose value is a quantified bag acts as a
renaming of quantified names. -/
theorem applySubToVars_singleton_rename (n m : String) : ∀ v : Variables,
    applySubstitutionToVariables [.var n (.quantified m)] v = renameVars (substFn n m) v
  | .concrete vs => rfl
  | .quantified k => by
      simp only [applySubstitutionToVariables, renameVars, List.find?, Substitution.name]
      by_cases hk : k = n
      · subst hk
        simp [substFn]
      · have : (n == k) = false := beq_eq_false_iff_ne.mpr (Ne.symm hk)
        simp [this, substFn, hk]
  | .union cs => by
      simp [applySubstitutionToVariables, renameVars,
        applySubToVarsList_singleton_rename n m cs]

theorem applySubToVarsList_singleton_rename (n m : String) : ∀ l : List Variables,
    applySubstitutionToVariablesList [.var n (.quantified m)] l
      = renameVarsList (substFn n m) l
  | [] => rfl
  | c :: cs => by
      simp [applySubstitutionToVariablesList, renameVarsList,
        applySubToVars_singleton_rename n m c, applySubToVarsList_singleton_rename n m cs]

end

mutual

theorem applySubToVars_nil : ∀ v : Variables,
    applySubstitutionToVariables [] v = v
  | .concrete vs => rfl
  | .quantified k => rfl
  | .union cs => by simp [applySubstitutionToVariables, applySubToVarsList_nil cs]

theorem applySubToVarsList_nil : ∀ l : List Variables,
    applySubstitutionToVariablesList [] l = l
  | [] => rfl
  | c :: cs => by
      simp [applySubstitutionToVariablesList, applySubToVars_nil c, applySubToVarsList_nil cs]

end

theorem sameVars_eqTest (v1 v2 : List String) :
    sameVars v1 v2 = ((sortStrings v1).length == (sortStrings v2).length
      && (List.zip (sortStrings v1) (sortStrings v2)).all fun p => p.1 == p.2) := rfl

theorem eqTest_iff : ∀ a b : List String,
    ((a.length == b.length) && ((List.zip a b).all fun p => p.1 == p.2)) = true ↔ a = b
  | [], [] => by simp
  | [], _ :: _ => by simp
  | _ :: _, [] => by simp
  | x :: xs, y :: ys => by
      have ihm := eqTest_iff xs ys
      simp only [List.length_cons, List.zip_cons_cons, List.all_cons, Bool.and_eq_true,
        beq_iff_eq, List.cons.injEq] at ihm ⊢
      constructor
      · rintro ⟨hlen, hx, hall⟩
        exact ⟨hx, ihm.mp ⟨by omega, hall⟩⟩
      · rintro ⟨hx, htail⟩
        have h2 := ihm.mpr htail
        exact ⟨by omega, hx, h2.2⟩

theorem sameVars_iff (v1 v2 : List String) :
    sameVars v1 v2 = true ↔ sortStrings v1 = sortStrings v2 := by
  rw [sameVars_eqTest]
  exact eqTest_iff (sortStrings v1) (sortStrings v2)

theorem sameVars_symm (v1 v2 : List String) : sameVars v1 v2 = sameVars v2 v1 := by
  by_cases h : sortStrings v1 = sortStrings v2
  · rw [(sameVars_iff v1 v2).mpr h, (sameVars_iff v2 v1).mpr h.symm]
  · have e1 : sameVars v1 v2 = false :=
      Bool.not_eq_true _ |>.mp fun hh => h ((sameVars_iff v1 v2).mp hh)
    have e2 : sameVars v2 v1 = false :=
      Bool.not_eq_true _ |>.mp fun hh => h (((sameVars_iff v2 v1).mp hh).symm)
    rw [e1, e2]

/-- Swapping the two arguments of the bag unifier preserves success. -/
theorem unifyVariables_ok_symm (x y : Variables) :
    eOk (unifyVariables x y) = eOk (unifyVariables y x) := by
  rcases hx : flattenUnions x with vs1 | n1 | cs1 <;>
    rcases hy : flattenUnions y with vs2 | n2 | cs2 <;>
    simp only [unifyVariables, hx, hy]
  · rw [sameVars_symm vs1 vs2]
    by_cases h : sameVars vs2 vs1 = true <;> simp [h, eOk]
  · simp [eOk, bindVariables, jsIncludesFreshObject]
  · simp [eOk]
  · simp [eOk, bindVariables, jsIncludesFreshObject]
  · by_cases h : n1 = n2
    · simp [h, eOk, bindVariables, jsIncludesFreshObject]
    · have h' : ¬ n2 = n1 := fun hh => h hh.symm
      simp [h, h', eOk, bindVariables, jsIncludesFreshObject]
  · simp [eOk, bindVariables, jsIncludesFreshObject]
  · simp [eOk]
  · simp [eOk, bindVariables, jsIncludesFreshObject]
  · by_cases h : cs1 = cs2
    · simp [h, eOk]
    · have h' : ¬ cs2 = cs1 := fun hh => h hh.symm
      simp [h, h', eOk]

/-- Renaming both arguments by an injective function preserves the success of
the bag unifier. -/
theorem unifyVariables_ok_rename (f : String → String) (hf : Function.Injective f)
    (x y : Variables) :
    eOk (unifyVariables (renameVars f x) (renameVars f y)) = eOk (unifyVariables x y) := by
  have hfx := flattenUnions_rename f x
  have hfy := flattenUnions_rename f y
  rcases hx : flattenUnions x with vs1 | n1 | cs1 <;>
    rcases hy : flattenUnions y with vs2 | n2 | cs2 <;>
    rw [hx] at hfx <;> rw [hy] at hfy <;>
    simp only [renameVars] at hfx hfy
  · simp only [unifyVariables, hx, hy, hfx, hfy]
  · simp only [unifyVariables, hx, hy, hfx, hfy]
    simp [eOk, bindVariables, jsIncludesFreshObject]
  · simp only [unifyVariables, hx, hy, hfx, hfy]
    simp [eOk]
  · simp only [unifyVariables, hx, hy, hfx, hfy]
    simp [eOk, bindVariables, jsIncludesFreshObject]
  · simp only [unifyVariables, hx, hy, hfx, hfy]
    by_cases h : n1 = n2
    · simp [h, eOk, bindVariables, jsIncludesFreshObject]
    · by_cases h2 : f n1 = f n2
      · exact absurd (hf h2) h
      · simp [h, h2, eOk, bindVariables, jsIncludesFreshObject]
  · simp only [unifyVariables, hx, hy, hfx, hfy]
    simp [eOk, bindVariables, jsIncludesFreshObject]
  · simp only [unifyVariables, hx, hy, hfx, hfy]
    simp [eOk]
  · simp only [unifyVariables, hx, hy, hfx, hfy]
    simp [eOk, bindVariables, jsIncludesFreshObject]
  · simp only [unifyVariables, hx, hy, hfx, hfy]
    by_cases h : cs1 = cs2
    · simp [h, eOk]
    · have h2 : ¬ renameVarsList f cs1 = renameVarsList f cs2 :=
        fun hh => h (renameVarsList_inj f hf cs1 cs2 hh)
      simp [h, h2, eOk]

theorem simplifyConcreteEffect_of_dup (rd up : Variables) (h : ¬ (findVars up).Nodup) :
    ∃ t, simplifyConcreteEffect rd up = .error t := by
  unfold simplifyConcreteEffect
  rw [if_pos ((repeated_filter_iff _).mpr h)]
  exact ⟨_, rfl⟩

/-- The update stage of `unifyConcrete` after a successful read unification
with substitutions `S`, as a success Boolean. -/
def updateStage (S : List Substitution) (r1 u1 r2 u2 : Variables) : Bool :=
  match applySubstitution S (.concrete r1 u1), applySubstitution S (.concrete r2 u2) with
  | .ok e1s, .ok e2s =>
    eOk (unifyVariables (ensureConcreteEffect e1s).2 (ensureConcreteEffect e2s).2)
  | _, _ => false

/-- The success Boolean of `unifyConcrete`, staged by read unification and
then update unification. -/
def unifyConcreteOkSpec (r1 u1 r2 u2 : Variables) : Bool :=
  match unifyVariables r1 r2 with
  | .error _ => false
  | .ok subs => updateStage subs r1 u1 r2 u2

theorem unifyConcrete_uOk (loc : String) (r1 u1 r2 u2 : Variables) :
    uOk (unifyConcrete loc r1 u1 r2 u2) = unifyConcreteOkSpec r1 u1 r2 u2 := by
  unfold unifyConcrete unifyConcreteOkSpec updateStage
  rcases hr : unifyVariables r1 r2 with t | subs
  · simp [hr, uOk]
  · simp only [hr]
    rcases h1 : applySubstitution subs (.concrete r1 u1) with t1 | e1s <;>
      rcases h2 : applySubstitution subs (.concrete r2 u2) with t2 | e2s <;>
      simp only [h1, h2]
    · simp [uOk]
    · simp [uOk]
    · simp [uOk]
    · rcases hu : unifyVariables (ensureConcreteEffect e1s).2 (ensureConcreteEffect e2s).2
        with t3 | s3 <;> simp [hu, uOk, eOk]

/-- The update stage is insensitive to swapping the two effects when the two
substitution lists are related by an injective renaming of quantified bag
names. -/
theorem updateStage_symm (S1 S2 : List Substitution) (f : String → String)
    (hf : Function.Injective f)
    (hA : ∀ v : Variables, applySubstitutionToVariables S2 v
        = renameVars f (applySubstitutionToVariables S1 v))
    (r1 u1 r2 u2 : Variables) :
    updateStage S2 r2 u2 r1 u1 = updateStage S1 r1 u1 r2 u2 := by
  have happ1 : ∀ r u : Variables, applySubstitution S1 (.concrete r u)
      = simplifyConcreteEffect (applySubstitutionToVariables S1 r)
        (applySubstitutionToVariables S1 u) := fun _ _ => rfl
  have happ2 : ∀ r u : Variables, applySubstitution S2 (.concrete r u)
      = simplifyConcreteEffect (renameVars f (applySubstitutionToVariables S1 r))
        (renameVars f (applySubstitutionToVariables S1 u)) := by
    intro r u
    rw [show applySubstitution S2 (.concrete r u)
        = simplifyConcreteEffect (applySubstitutionToVariables S2 r)
          (applySubstitutionToVariables S2 u) from rfl, hA r, hA u]
  unfold updateStage
  rw [happ1 r1 u1, happ1 r2 u2, happ2 r2 u2, happ2 r1 u1]
  by_cases hn1 : (findVars (applySubstitutionToVariables S1 u1)).Nodup
  · by_cases hn2 : (findVars (applySubstitutionToVariables S1 u2)).Nodup
    · rw [simplifyConcreteEffect_of_nodup _ _ hn1, simplifyConcreteEffect_of_nodup _ _ hn2,
        simplifyConcreteEffect_of_nodup _ _ (by rw [findVars_rename]; exact hn2),
        simplifyConcreteEffect_of_nodup _ _ (by rw [findVars_rename]; exact hn1)]
      simp only [ensureConcreteEffect]
      rw [flattenUnions_rename, flattenUnions_rename, unifyVariables_ok_symm,
        unifyVariables_ok_rename f hf]
    · obtain ⟨t1, ht1⟩ := simplifyConcreteEffect_of_dup
        (renameVars f (applySubstitutionToVariables S1 r2))
        (renameVars f (applySubstitutionToVariables S1 u2))
        (by rw [findVars_rename]; exact hn2)
      obtain ⟨t2, ht2⟩ := simplifyConcreteEffect_of_dup
        (applySubstitutionToVariables S1 r2) (applySubstitutionToVariables S1 u2) hn2
      rw [ht1, ht2, simplifyConcreteEffect_of_nodup _ _ hn1]
  · obtain ⟨t1, ht1⟩ := simplifyConcreteEffect_of_dup
      (renameVars f (applySubstitutionToVariables S1 r1))
      (renameVars f (applySubstitutionToVariables S1 u1))
      (by rw [findVars_rename]; exact hn1)
    obtain ⟨t2, ht2⟩ := simplifyConcreteEffect_of_dup
      (applySubstitutionToVariables S1 r1) (applySubstitutionToVariables S1 u1) hn1
    rw [ht1, ht2]
    by_cases hn2 : (findVars (applySubstitutionToVariables S1 u2)).Nodup
    · rw [simplifyConcreteEffect_of_nodup
        (renameVars f (applySubstitutionToVariables S1 r2))
        (renameVars f (applySubstitutionToVariables S1 u2))
        (by rw [findVars_rename]; exact hn2)]
    · obtain ⟨t3, ht3⟩ := simplifyConcreteEffect_of_dup
        (renameVars f (applySubstitutionToVariables S1 r2))
        (renameVars f (applySubstitutionToVariables S1 u2))
        (by rw [findVars_rename]; exact hn2)
      rw [ht3]

theorem spec_of_uv_error {r1 u1 r2 u2 : Variables}
    (h : eOk (unifyVariables r1 r2) = false) :
    unifyConcreteOkSpec r1 u1 r2 u2 = false := by
  unfold unifyConcreteOkSpec
  rcases hv : unifyVariables r1 r2 with t | s
  · simp [hv]
  · rw [hv] at h
    simp [eOk] at h

theorem spec_of_uv_ok {r1 u1 r2 u2 : Variables} {S : List Substitution}
    (h : unifyVariables r1 r2 = .ok S) :
    unifyConcreteOkSpec r1 u1 r2 u2 = updateStage S r1 u1 r2 u2 := by
  unfold unifyConcreteOkSpec
  simp [h]

/-- Success of concrete unification is insensitive to swapping the two
effects. -/
theorem unifyConcreteOkSpec_symm (r1 u1 r2 u2 : Variables) :
    unifyConcreteOkSpec r2 u2 r1 u1 = unifyConcreteOkSpec r1 u1 r2 u2 := by
  have hid : Function.Injective (fun k : String => k) := fun a b hh => hh
  have hAid : ∀ (S : List Substitution) (v : Variables),
      applySubstitutionToVariables S v
        = renameVars (fun k => k) (applySubstitutionToVariables S v) :=
    fun S v => (renameVars_id _).symm
  rcases hf1 : flattenUnions r1 with vs1 | n1 | cs1 <;>
    rcases hf2 : flattenUnions r2 with vs2 | n2 | cs2
  · -- concrete / concrete
    by_cases hsv : sameVars vs1 vs2 = true
    · have huv12 : unifyVariables r1 r2 = .ok [] := by
        simp [unifyVariables, hf1, hf2, hsv]
      have huv21 : unifyVariables r2 r1 = .ok [] := by
        simp [unifyVariables, hf1, hf2, sameVars_symm vs2 vs1, hsv]
      rw [spec_of_uv_ok huv21, spec_of_uv_ok huv12]
      exact updateStage_symm [] [] (fun k => k) hid (hAid []) r1 u1 r2 u2
    · have huv12 : eOk (unifyVariables r1 r2) = false := by
        simp [unifyVariables, hf1, hf2, hsv, eOk]
      have huv21 : eOk (unifyVariables r2 r1) = false := by
        simp [unifyVariables, hf1, hf2, sameVars_symm vs2 vs1, hsv, eOk]
      rw [spec_of_uv_error huv21, spec_of_uv_error huv12]
  · -- concrete / quantified: same binding in both directions
    have huv12 : unifyVariables r1 r2 = .ok [.var n2 (.concrete vs1)] := by
      simp [unifyVariables, hf1, hf2, bindVariables, jsIncludesFreshObject]
    have huv21 : unifyVariables r2 r1 = .ok [.var n2 (.concrete vs1)] := by
      simp [unifyVariables, hf1, hf2, bindVariables, jsIncludesFreshObject]
    rw [spec_of_uv_ok huv21, spec_of_uv_ok huv12]
    exact updateStage_symm _ _ (fun k => k) hid (hAid _) r1 u1 r2 u2
  · -- concrete / union: unsupported in both directions
    have huv12 : eOk (unifyVariables r1 r2) = false := by
      simp [unifyVariables, hf1, hf2, eOk]
    have huv21 : eOk (unifyVariables r2 r1) = false := by
      simp [unifyVariables, hf1, hf2, eOk]
    rw [spec_of_uv_error huv21, spec_of_uv_error huv12]
  · -- quantified / concrete
    have huv12 : unifyVariables r1 r2 = .ok [.var n1 (.concrete vs2)] := by
      simp [unifyVariables, hf1, hf2, bindVariables, jsIncludesFreshObject]
    have huv21 : unifyVariables r2 r1 = .ok [.var n1 (.concrete vs2)] := by
      simp [unifyVariables, hf1, hf2, bindVariables, jsIncludesFreshObject]
    rw [spec_of_uv_ok huv21, spec_of_uv_ok huv12]
    exact updateStage_symm _ _ (fun k => k) hid (hAid _) r1 u1 r2 u2
  · -- quantified / quantified
    by_cases hne : n1 = n2
    · subst hne
      have huv12 : unifyVariables r1 r2 = .ok [] := by
        simp [unifyVariables, hf1, hf2]
      have huv21 : unifyVariables r2 r1 = .ok [] := by
        simp [unifyVariables, hf1, hf2]
      rw [spec_of_uv_ok huv21, spec_of_uv_ok huv12]
      exact updateStage_symm [] [] (fun k => k) hid (hAid []) r1 u1 r2 u2
    · have hne' : ¬ n2 = n1 := fun hh => hne hh.symm
      have huv12 : unifyVariables r1 r2 = .ok [.var n1 (.quantified n2)] := by
        simp [unifyVariables, hf1, hf2, hne, bindVariables, jsIncludesFreshObject]
      have huv21 : unifyVariables r2 r1 = .ok [.var n2 (.quantified n1)] := by
        simp [unifyVariables, hf1, hf2, hne', bindVariables, jsIncludesFreshObject]
      rw [spec_of_uv_ok huv21, spec_of_uv_ok huv12]
      refine updateStage_symm [.var n1 (.quantified n2)] [.var n2 (.quantified n1)]
        (swapFn n1 n2) (swapFn_injective n1 n2) ?_ r1 u1 r2 u2
      intro v
      rw [applySubToVars_singleton_rename, applySubToVars_singleton_rename, renameVars_comp]
      exact renameVars_congr _ _ (fun k => (swap_comp_subst n1 n2 hne k).symm) v
  · -- quantified / union
    have huv12 : unifyVariables r1 r2 = .ok [.var n1 (.union cs2)] := by
      simp [unifyVariables, hf1, hf2, bindVariables, jsIncludesFreshObject]
    have huv21 : unifyVariables r2 r1 = .ok [.var n1 (.union cs2)] := by
      simp [unifyVariables, hf1, hf2, bindVariables, jsIncludesFreshObject]
    rw [spec_of_uv_ok huv21, spec_of_uv_ok huv12]
    exact updateStage_symm _ _ (fun k => k) hid (hAid _) r1 u1 r2 u2
  · -- union / concrete
    have huv12 : eOk (unifyVariables r1 r2) = false := by
      simp [unifyVariables, hf1, hf2, eOk]
    have huv21 : eOk (unifyVariables r2 r1) = false := by
      simp [unifyVariables, hf1, hf2, eOk]
    rw [spec_of_uv_error huv21, spec_of_uv_error huv12]
  · -- union / quantified
    have huv12 : unifyVariables r1 r2 = .ok [.var n2 (.union cs1)] := by
      simp [unifyVariables, hf1, hf2, bindVariables, jsIncludesFreshObject]
    have huv21 : unifyVariables r2 r1 = .ok [.var n2 (.union cs1)] := by
      simp [unifyVariables, hf1, hf2, bindVariables, jsIncludesFreshObject]
    rw [spec_of_uv_ok huv21, spec_of_uv_ok huv12]
    exact updateStage_symm _ _ (fun k => k) hid (hAid _) r1 u1 r2 u2
  · -- union / union
    by_cases heq : cs1 = cs2
    · subst heq
      have huv12 : unifyVariables r1 r2 = .ok [] := by
        simp [unifyVariables, hf1, hf2]
      have huv21 : unifyVariables r2 r1 = .ok [] := by
        simp [unifyVariables, hf1, hf2]
      rw [spec_of_uv_ok huv21, spec_of_uv_ok huv12]
      exact updateStage_symm [] [] (fun k => k) hid (hAid []) r1 u1 r2 u2
    · have heq' : ¬ cs2 = cs1 := fun hh => heq hh.symm
      have huv12 : eOk (unifyVariables r1 r2) = false := by
        simp [unifyVariables, hf1, hf2, heq, eOk]
      have huv21 : eOk (unifyVariables r2 r1) = false := by
        simp [unifyVariables, hf1, hf2, heq', eOk]
      rw [spec_of_uv_error huv21, spec_of_uv_error huv12]

/-- Success of `unifyConcrete` is insensitive to swapping the two effects
(and to the location strings). -/
theorem unifyConcrete_uOk_symm (l1 l2 : String) (r1 u1 r2 u2 : Variables) :
    uOk (unifyConcrete l2 r2 u2 r1 u1) = uOk (unifyConcrete l1 r1 u1 r2 u2) := by
  rw [unifyConcrete_uOk, unifyConcrete_uOk]
  exact unifyConcreteOkSpec_symm r1 u1 r2 u2

theorem simplifyEffect_isArrow (e e' : Effect) (h : simplifyEffect e = .ok e') :
    isArrowB e' = isArrowB e := by
  cases e with
  | quantified n =>
    have he := Except.ok.inj h
    rw [← he]
  | arrow ps q =>
    have he := Except.ok.inj h
    rw [← he]
  | concrete rd up =>
    obtain ⟨_, he⟩ := simplifyConcreteEffect_ok_inv rd up e' h
    rw [he]
    rfl

/-- When both fully simplified effects are concrete, the success of `unify`
is the success of `unifyConcrete` on their bags. -/
theorem unify_cc (fuel : Nat) (a b : Effect) (rd1 up1 rd2 up2 : Variables)
    (ha : simplifyEffect a = .ok (.concrete rd1 up1))
    (hb : simplifyEffect b = .ok (.concrete rd2 up2)) :
    unifyResultOk (unify (fuel + 1) a b)
      = uOk (unifyConcrete
          ("Trying to unify " ++ effectToString a ++ " and " ++ effectToString b)
          rd1 up1 rd2 up2) := by
  simp only [unify, ha, hb]
  rcases hu : unifyConcrete
      ("Trying to unify " ++ effectToString a ++ " and " ++ effectToString b)
      rd1 up1 rd2 up2 with t | s <;>
    simp [hu, unifyResultOk, uOk]

/-- C8 amended: for all effects that are not both arrows, unification
succeeds in one argument order exactly when it succeeds in the other.  The
restriction is exact: the counterexample shows both that the resulting
substitutions are not extensionally equal in general and that for two arrow
effects even success is not symmetric. -/
theorem c8_unify_success_symmetric (fuel : Nat) (a b : Effect)
    (h : ¬(isArrowB a = true ∧ isArrowB b = true)) :
    unifyResultOk (unify (fuel + 1) a b) = unifyResultOk (unify (fuel + 1) b a) := by
  rcases hsa : simplifyEffect a with ta | e1
  · rcases hsb : simplifyEffect b with tb | e2 <;>
      simp [unify, hsa, hsb, unifyResultOk]
  · rcases hsb : simplifyEffect b with tb | e2
    · simp [unify, hsa, hsb, unifyResultOk]
    · have hka := simplifyEffect_isArrow a e1 hsa
      have hkb := simplifyEffect_isArrow b e2 hsb
      rcases e1 with n1 | ⟨rd1, up1⟩ | ⟨ps1, q1⟩ <;>
        rcases e2 with n2 | ⟨rd2, up2⟩ | ⟨ps2, q2⟩
      · simp [unify, hsa, hsb, unifyResultOk, bindEffect, jsIncludesFreshObject]
      · simp [unify, hsa, hsb, unifyResultOk, bindEffect, jsIncludesFreshObject]
      · simp [unify, hsa, hsb, unifyResultOk, bindEffect, jsIncludesFreshObject]
      · simp [unify, hsa, hsb, unifyResultOk, bindEffect, jsIncludesFreshObject]
      · rw [unify_cc fuel a b rd1 up1 rd2 up2 hsa hsb,
          unify_cc fuel b a rd2 up2 rd1 up1 hsb hsa]
        exact (unifyConcrete_uOk_symm _ _ rd1 up1 rd2 up2).symm
      · simp [unify, hsa, hsb, unifyResultOk]
      · simp [unify, hsa, hsb, unifyResultOk, bindEffect, jsIncludesFreshObject]
      · simp [unify, hsa, hsb, unifyResultOk]
      · exact absurd ⟨hka.symm.trans rfl, hkb.symm.trans rfl⟩ h

/-- C8 witness: the success symmetry evaluated at a quantified effect against
a concrete effect. -/
theorem c8_unify_success_symmetric_witness :
    ¬(isArrowB (.quantified "a") = true
        ∧ isArrowB (.concrete (.concrete ["x"]) (.concrete [])) = true)
    ∧ unifyResultOk (unify 1 (.quantified "a") (.concrete (.concrete ["x"]) (.concrete [])))
      = unifyResultOk (unify 1 (.concrete (.concrete ["x"]) (.concrete [])) (.quantified "a")) :=
  ⟨by decide, c8_unify_success_symmetric 0 (.quantified "a")
    (.concrete (.concrete ["x"]) (.concrete [])) (by decide)⟩

end Effects
